import Mathlib

/-!
# Verification development for `src/content.js`

A shallow embedding of the content script of the YouTube summary extension:
the timestamp formatter, the entity decoder, the transcript extractor, the
streamed-text-to-markup formatter and the button/panel controller.

JavaScript strings are sequences of UTF-16 code units; they are modelled as
lists of natural numbers.  Regular expressions are modelled by a small
backtracking matcher that returns every way a pattern can match, in the
priority order of the ECMAScript matcher, so that the first element of the
result list is the match the JavaScript engine reports.
-/

namespace YtSummary

/-! ## Strings -/

/-- A JavaScript string: a list of UTF-16 code units. -/
abbrev JsString := List Nat

/-- UTF-16 encoding of one Unicode scalar value. -/
def utf16 (c : Char) : JsString :=
  if c.toNat < 65536 then [c.toNat]
  else [55296 + (c.toNat - 65536) / 1024, 56320 + (c.toNat - 65536) % 1024]

/-- The JavaScript string denoted by a source literal. -/
def js (s : String) : JsString := s.toList.flatMap utf16

/-- ECMAScript `LineTerminator` code units: LF, CR, U+2028, U+2029. -/
def isLineTerminator (c : Nat) : Bool :=
  c == 10 || c == 13 || c == 8232 || c == 8233

/-- ECMAScript `WhiteSpace` or `LineTerminator`: what `trim` strips and `\s` matches. -/
def isWhiteSpace (c : Nat) : Bool :=
  c == 9 || c == 11 || c == 12 || c == 32 || c == 160 || c == 5760 ||
  (8192 ≤ c && c ≤ 8202) || c == 8239 || c == 8287 || c == 12288 || c == 65279 ||
  isLineTerminator c

/-- The code units `0` to `9`. -/
def isDecDigit (c : Nat) : Bool := 48 ≤ c && c ≤ 57

/-- `String.prototype.trim`. -/
def trim (s : JsString) : JsString :=
  ((s.dropWhile isWhiteSpace).reverse.dropWhile isWhiteSpace).reverse

/-- Worker of `split`: `cur` is the current piece, reversed. -/
def splitAux (sep : Nat) : JsString → JsString → List JsString
  | [], cur => [cur.reverse]
  | c :: cs, cur =>
    if c = sep then cur.reverse :: splitAux sep cs [] else splitAux sep cs (c :: cur)

/-- `String.prototype.split` with a one-code-unit separator. -/
def split (sep : Nat) (s : JsString) : List JsString := splitAux sep s []

/-- `Array.prototype.join`. -/
def join (sep : JsString) : List JsString → JsString
  | [] => []
  | [x] => x
  | x :: y :: rest => x ++ sep ++ join sep (y :: rest)

/-- `String.prototype.startsWith`. -/
def startsWith (s pre : JsString) : Bool := pre.isPrefixOf s

/-- `String.prototype.endsWith`. -/
def endsWith (s suf : JsString) : Bool := suf.reverse.isPrefixOf s.reverse

/-- `String.prototype.includes`. -/
def includes : JsString → JsString → Bool
  | [], sub => sub.isEmpty
  | c :: cs, sub => sub.isPrefixOf (c :: cs) || includes cs sub

/-! ## Regular expressions -/

/-- Abstract syntax of the patterns used by the script. -/
inductive Re where
  | cls (p : Nat → Bool)
  | eps
  | seq (a b : Re)
  | alt (a b : Re)
  | star (greedy : Bool) (r : Re)
  | bol
  | eol
  | group (i : Nat) (r : Re)

/-- A position of the matcher in the input. -/
structure MatchState where
  pos : Nat
  rest : JsString
  caps : List (Nat × JsString)
deriving DecidableEq, Repr

/-- The iteration of a quantifier: an iteration that consumes nothing is rejected,
and a greedy quantifier tries one more iteration before stopping. -/
def starLoop (step : MatchState → List MatchState) (greedy : Bool) :
    Nat → MatchState → List MatchState
  | 0, st => [st]
  | fuel + 1, st =>
    let more := ((step st).filter (fun st2 => st.pos < st2.pos)).flatMap
      (starLoop step greedy fuel)
    if greedy then more ++ [st] else st :: more

/-- All the ways the pattern matches from a state, in backtracking priority order. -/
def reMatch : Re → MatchState → List MatchState
  | .cls p, st =>
    match st.rest with
    | [] => []
    | c :: cs => if p c then [{ st with pos := st.pos + 1, rest := cs }] else []
  | .eps, st => [st]
  | .seq a b, st => (reMatch a st).flatMap (reMatch b)
  | .alt a b, st => reMatch a st ++ reMatch b st
  | .star greedy r, st => starLoop (reMatch r) greedy st.rest.length st
  | .bol, st => if st.pos = 0 then [st] else []
  | .eol, st => if st.rest = [] then [st] else []
  | .group i r, st =>
    (reMatch r st).map (fun st2 =>
      { st2 with caps := (i, st.rest.take (st2.pos - st.pos)) :: st2.caps })

namespace Re

/-- One given code unit. -/
def chr (c : Nat) : Re := .cls (fun x => x == c)

/-- A literal run of code units. -/
def lit : JsString → Re
  | [] => .eps
  | c :: cs => .seq (chr c) (lit cs)

/-- The pattern `r+`. -/
def plus (greedy : Bool) (r : Re) : Re := .seq r (.star greedy r)

/-- The pattern `r?`. -/
def opt (r : Re) : Re := .alt r .eps

/-- The pattern `r{n}`. -/
def rep : Nat → Re → Re
  | 0, _ => .eps
  | n + 1, r => .seq r (rep n r)

/-- The pattern `.` (no `s` flag): any code unit but a line terminator. -/
def dot : Re := .cls (fun c => !isLineTerminator c)

/-- The pattern `\d`. -/
def digit : Re := .cls isDecDigit

end Re

/-- One attempt of `RegExp.prototype.exec`: the leftmost start position with a match;
returns the skipped text and the end state of the first match there. -/
def execFrom (re : Re) : Nat → JsString → Option (JsString × MatchState)
  | pos, [] => (reMatch re ⟨pos, [], []⟩).head?.map (fun st => ([], st))
  | pos, c :: tl =>
    match (reMatch re ⟨pos, c :: tl, []⟩).head? with
    | some st => some ([], st)
    | none => (execFrom re (pos + 1) tl).map (fun r => (c :: r.1, r.2))

/-- The text matched, given the input searched, the skipped text and the end state. -/
def matchedText (pos : Nat) (rest : JsString) (r : JsString × MatchState) : JsString :=
  (rest.drop r.1.length).take (r.2.pos - (pos + r.1.length))

/-- The value of capture group `i`. -/
def capture (caps : List (Nat × JsString)) (i : Nat) : Option JsString :=
  (caps.find? (fun c => c.1 == i)).map (fun c => c.2)

/-- `RegExp.prototype.test`. -/
def test (re : Re) (s : JsString) : Bool := (execFrom re 0 s).isSome

/-- `String.prototype.replace` with a non-global pattern; the replacement is computed
from the matched text and the captures. -/
def replaceFirst (re : Re) (f : JsString → List (Nat × JsString) → JsString)
    (s : JsString) : JsString :=
  match execFrom re 0 s with
  | none => s
  | some r => r.1 ++ f (matchedText 0 s r) r.2.caps ++ r.2.rest

/-- Worker of the global replace: `pos` is the index of `rest` in the input. -/
def replaceAllAux (re : Re) (f : JsString → List (Nat × JsString) → JsString) :
    Nat → Nat → JsString → JsString
  | 0, _, rest => rest
  | fuel + 1, pos, rest =>
    match execFrom re pos rest with
    | none => rest
    | some r =>
      let out := r.1 ++ f (matchedText pos rest r) r.2.caps
      if r.2.pos = pos + r.1.length then
        match r.2.rest with
        | [] => out
        | c :: tl => out ++ c :: replaceAllAux re f fuel (r.2.pos + 1) tl
      else out ++ replaceAllAux re f fuel r.2.pos r.2.rest

/-- `String.prototype.replace` with a global pattern and a replacer function. -/
def replaceAll (re : Re) (f : JsString → List (Nat × JsString) → JsString)
    (s : JsString) : JsString :=
  replaceAllAux re f (s.length + 1) 0 s

/-! ## The markup formatter of `generateSummary` -/

/-- The pattern `/^\* \*\*(.*)\*\*$/`. -/
def reBold : Re :=
  .seq .bol (.seq (Re.lit (js "* **")) (.seq (.group 1 (.star true Re.dot))
    (.seq (Re.lit (js "**")) .eol)))

/-- The pattern `/^\* /`. -/
def reBullet : Re := .seq .bol (Re.lit (js "* "))

/-- The pattern `<li[^>]*>.*?<\/li>\n*`, the group of the list-run pattern. -/
def reListItem : Re :=
  .seq (Re.lit (js "<li")) (.seq (.star true (.cls (fun c => c != 62)))
    (.seq (Re.chr 62) (.seq (.star false Re.dot) (.seq (Re.lit (js "</li>"))
      (.star true (Re.chr 10))))))

/-- The pattern `/(<li[^>]*>.*?<\/li>\n*)+/g`. -/
def reListRun : Re := Re.plus true (.group 1 reListItem)

def h2Open : JsString :=
  js "<h2 style=\"font-size: 1.1em; color: #000; margin: 1em 0 0.3em 0; border-bottom: 1px solid #ddd; padding-bottom: 0.2em;\">"

def h2Close : JsString := js "</h2>"

def liBoldOpen : JsString := js "<li style=\"font-size: 1em; margin: 0.3em 0; font-weight: bold;\">"

def liOpen : JsString := js "<li style=\"font-size: 1em; margin: 0.3em 0;\">"

def liClose : JsString := js "</li>"

def pOpen : JsString := js "<p style=\"font-size: 1em; margin: 0.3em 0; line-height: 1.3;\">"

def pClose : JsString := js "</p>"

def ulOpen : JsString := js "<ul style=\"list-style-type: disc; margin: 0.3em 0 0.3em 1.5em;\">"

def ulClose : JsString := js "</ul>"

/-- The callback of `.map` in the formatter: one buffer line to its markup. -/
def formatLine (line0 : JsString) : JsString :=
  let line := trim line0
  if line.length = 0 then []
  else if endsWith line (js ":") then h2Open ++ line ++ h2Close
  else if startsWith line (js "* **") then
    let content := replaceFirst reBold (fun _ caps => (capture caps 1).getD []) line
    liBoldOpen ++ content ++ liClose
  else if startsWith line (js "*") then
    let content := replaceFirst reBullet (fun _ _ => []) line
    liOpen ++ content ++ liClose
  else pOpen ++ line ++ pClose

/-- The value of `formattedSummary`: split, map, filter, join. -/
def formattedSummary (buffer : JsString) : JsString :=
  join [10] (((split 10 buffer).map formatLine).filter (fun l => decide (l.length > 0)))

/-- The value of `wrappedSummary`: every match of the list-run pattern is wrapped. -/
def wrapLists (s : JsString) : JsString :=
  replaceAll reListRun (fun m _ => ulOpen ++ m ++ ulClose) s

/-- The markup assigned to `summaryDiv.innerHTML` for a buffer. -/
def wrappedSummary (buffer : JsString) : JsString := wrapLists (formattedSummary buffer)

/-! ## Numbers

JavaScript numbers are double-precision floating-point numbers.  The finite ones are
modelled by the rationals they denote; an operation that rounds is modelled by the exact
operation followed by the rounding to the nearest double, ties to even.  Infinity and NaN
are not modelled. -/

/-- Worker of `bitLength`. -/
def bitLengthAux : Nat → Nat → Nat
  | 0, _ => 0
  | fuel + 1, n => if n = 0 then 0 else bitLengthAux fuel (n / 2) + 1

/-- The number of binary digits of a natural number. -/
def bitLength (n : Nat) : Nat := bitLengthAux n n

/-- The double nearest to a natural number, ties to even: a number of at most 53 binary
digits is a double, a longer one is rounded to 53 significant binary digits. -/
def toDouble (n : Nat) : Nat :=
  if bitLength n ≤ 53 then n
  else
    let sh := bitLength n - 53
    let q := n / 2 ^ sh
    let r := n % 2 ^ sh
    let half := 2 ^ (sh - 1)
    let q2 := if r < half then q else if half < r then q + 1 else if q % 2 = 0 then q else q + 1
    q2 * 2 ^ sh

/-- The integer nearest to a rational, ties to even. -/
def roundHalfEven (m : ℚ) : Int :=
  if m - ⌊m⌋ < 1 / 2 then ⌊m⌋
  else if 1 / 2 < m - ⌊m⌋ then ⌊m⌋ + 1
  else if ⌊m⌋ % 2 = 0 then ⌊m⌋ else ⌊m⌋ + 1

/-- The double nearest to a rational, ties to even: the significand has 53 binary digits,
and the exponent of the last place is at least -1074. -/
def roundToDouble (x : ℚ) : ℚ :=
  if x = 0 then 0
  else
    (if x < 0 then -1 else 1) *
      (roundHalfEven (|x| / 2 ^ max (Int.log 2 |x| - 52) (-1074)) : ℚ) *
      2 ^ max (Int.log 2 |x| - 52) (-1074)

/-- The `/` operator on numbers. -/
def fdiv (x y : ℚ) : ℚ := roundToDouble (x / y)

/-- The `%` operator on numbers: the remainder has the sign of the dividend, and it is
exact. -/
def jsRem (x m : ℚ) : ℚ :=
  x - m * (if 0 ≤ x / m then (⌊x / m⌋ : ℚ) else (⌈x / m⌉ : ℚ))

/-- Worker of `decimalDigits`: decimal digits, most significant first. -/
def digitsAux : Nat → Nat → JsString → JsString
  | 0, _, acc => acc
  | fuel + 1, n, acc =>
    if n < 10 then (48 + n) :: acc else digitsAux fuel (n / 10) ((48 + n % 10) :: acc)

/-- The decimal digits of a natural number. -/
def decimalDigits (n : Nat) : JsString := digitsAux (n + 1) n []

/-- The candidate significands with `k` digits for the integer `m` of `n` digits: the
pair of the significand and the power of ten it is scaled by, when the scaled value reads
back as `m`; of two candidates the nearer one, the even one when equally near. -/
def digitsCandidate (m n k : Nat) : Option (Nat × Nat) :=
  let p := 10 ^ (n - k)
  let lo := m / p
  let hi := lo + 1
  let okLo := toDouble (lo * p) == m
  let okHi := toDouble (hi * p) == m
  let pick (s : Nat) : Nat × Nat := if s = 10 ^ k then (1, n) else (s, n - k)
  if okLo && okHi then
    (if m - lo * p < hi * p - m then some (pick lo)
     else if hi * p - m < m - lo * p then some (pick hi)
     else if lo % 2 = 0 then some (pick lo) else some (pick hi))
  else if okLo then some (pick lo)
  else if okHi then some (pick hi)
  else none

/-- The shortest significand `s` and the exponent `e` with `m` the double nearest to
`s × 10^e`, as `Number::toString` chooses them for an integer `m`. -/
def shortestDigits (m : Nat) : Nat × Nat :=
  ((List.range (decimalDigits m).length).findSome?
    (fun i => digitsCandidate m (decimalDigits m).length (i + 1))).getD (m, 0)

/-- `Number.prototype.toString` on a non-negative integer-valued number.  Below 2^53 the
shortest digits that read back as the number are its decimal digits.  From there on the
shortest significand is printed, followed by zeros while the number has at most 21
digits, and in exponent notation otherwise. -/
def numberToString (m : Nat) : JsString :=
  if m < 2 ^ 53 then decimalDigits m
  else
    let s := decimalDigits (shortestDigits m).1
    let n := s.length + (shortestDigits m).2
    if n ≤ 21 then s ++ List.replicate (shortestDigits m).2 48
    else
      s.take 1 ++ (if s.length = 1 then [] else 46 :: s.drop 1) ++ [101, 43] ++
        decimalDigits (n - 1)

/-- `Number.prototype.toString` on an integer-valued number. -/
def intToString (z : Int) : JsString :=
  if z < 0 then 45 :: numberToString z.natAbs else numberToString z.natAbs

/-- `String.prototype.padStart` with a one-code-unit filler. -/
def padStart (len fill : Nat) (s : JsString) : JsString :=
  List.replicate (len - s.length) fill ++ s

/-! ## `formatTimestamp` -/

/-- The function `formatTimestamp`. -/
def formatTimestamp (seconds : ℚ) : JsString :=
  let hours : Int := ⌊fdiv seconds 3600⌋
  let minutes : Int := ⌊fdiv (jsRem seconds 3600) 60⌋
  let remainingSeconds : Int := ⌊jsRem seconds 60⌋
  if hours > 0 then
    intToString hours ++ js ":" ++ padStart 2 48 (intToString minutes) ++ js ":" ++
      padStart 2 48 (intToString remainingSeconds)
  else intToString minutes ++ js ":" ++ padStart 2 48 (intToString remainingSeconds)

/-- The pattern `^\d+:\d{2}$`. -/
def reMinSec : Re :=
  .seq .bol (.seq (Re.plus true Re.digit) (.seq (Re.chr 58) (.seq (Re.rep 2 Re.digit) .eol)))

/-- The pattern `^\d+:\d{2}:\d{2}$`. -/
def reHourMinSec : Re :=
  .seq .bol (.seq (Re.plus true Re.digit) (.seq (Re.chr 58) (.seq (Re.rep 2 Re.digit)
    (.seq (Re.chr 58) (.seq (Re.rep 2 Re.digit) .eol)))))

/-! ## `decodeHTMLEntities` -/

/-- The object literal `entities`. -/
def entities : List (JsString × JsString) :=
  [(js "&amp;", js "&"), (js "&lt;", js "<"), (js "&gt;", js ">"), (js "&quot;", js "\""),
   (js "&#39;", js "'"), (js "&apos;", js "'"), (js "&#x27;", js "'"), (js "&#x2F;", js "/"),
   (js "&#32;", js " "), (js "&nbsp;", js " ")]

/-- Property lookup `entities[entity]`. -/
def lookupEntity (entity : JsString) : Option JsString :=
  (entities.find? (fun e => e.1 == entity)).map (fun e => e.2)

def isAsciiLetter (c : Nat) : Bool := (97 ≤ c && c ≤ 122) || (65 ≤ c && c ≤ 90)

def isHexDigit (c : Nat) : Bool :=
  (97 ≤ c && c ≤ 102) || (65 ≤ c && c ≤ 70) || (48 ≤ c && c ≤ 57)

/-- The pattern `/&[a-z]+;/gi`. -/
def reNamedEntity : Re :=
  .seq (Re.chr 38) (.seq (Re.plus true (.cls isAsciiLetter)) (Re.chr 59))

/-- The pattern `/&#(\d+);/g`. -/
def reDecEntity : Re :=
  .seq (Re.lit (js "&#")) (.seq (.group 1 (Re.plus true (.cls isDecDigit))) (Re.chr 59))

/-- The pattern `/&#x([a-f0-9]+);/gi`. -/
def reHexEntity : Re :=
  .seq (Re.lit (js "&#")) (.seq (.cls (fun c => c == 120 || c == 88))
    (.seq (.group 1 (Re.plus true (.cls isHexDigit))) (Re.chr 59)))

/-- The value of one hexadecimal (or decimal) digit. -/
def digitValue (c : Nat) : Nat :=
  if 48 ≤ c && c ≤ 57 then c - 48
  else if 97 ≤ c && c ≤ 102 then c - 87
  else c - 55

/-- The mathematical value of a run of digits in a base. -/
def parseDigits (base : Nat) (s : JsString) : Nat :=
  s.foldl (fun acc c => acc * base + digitValue c) 0

/-- The number a run of digits denotes: `ToNumber` on a run of decimal digits and
`parseInt(_, 16)` on a run of hexadecimal digits give the double nearest to its value. -/
def digitsToNumber (base : Nat) (s : JsString) : Nat := toDouble (parseDigits base s)

/-- `String.fromCharCode` on a non-negative integer-valued number: the argument is reduced
to 16 bits (`ToUint16`) and becomes one code unit.  A run of digits beyond the range of
doubles denotes Infinity, which `ToUint16` reduces to 0; the natural number that stands
for it here is a multiple of 2^16, as every double from 2^69 on is, and gives 0 as well. -/
def fromCharCode (n : Nat) : JsString := [n % 65536]

/-- The function `decodeHTMLEntities`.  The parser of the `textarea` element, which the
script uses as the last step, is the browser's and is a parameter. -/
def decodeHTMLEntities (htmlUnescape : JsString → JsString) (text : JsString) : JsString :=
  let text1 := replaceAll reNamedEntity
    (fun entity _ => ((lookupEntity entity).filter (fun v => !v.isEmpty)).getD entity) text
  let text2 := replaceAll reDecEntity
    (fun _ caps => fromCharCode (digitsToNumber 10 ((capture caps 1).getD []))) text1
  let text3 := replaceAll reHexEntity
    (fun _ caps => fromCharCode (digitsToNumber 16 ((capture caps 1).getD []))) text2
  htmlUnescape text3

/-! ## `extractTranscript` -/

/-- One entry of the caption source. -/
structure CaptionEntry where
  offset : ℚ
  text : JsString

/-- The outcome of a call of `YoutubeTranscript.fetchTranscript`: rejected with a message,
or resolved with a list of entries or with nothing. -/
abbrev FetchResult := Except JsString (Option (List CaptionEntry))

/-- One event of the response stream: a chunk of text, or an error thrown while iterating. -/
abbrev StreamEvent := Except JsString JsString

/-- What the script reads from its surroundings. -/
structure World where
  href : JsString
  fetchTranscript : JsString → Option JsString → FetchResult
  generateContentStream : JsString → Except JsString (List StreamEvent)
  htmlUnescape : JsString → JsString

/-- A recorded call of the caption source: the video identifier and the language asked. -/
abbrev FetchCall := JsString × Option JsString

/-- The video-identifier pattern
`/(?:youtube\.com\/(?:[^\/]+\/.+\/|(?:v|e(?:mbed)?)\/|.*[?&]v=)|youtu\.be\/)([^"&?\/\s]{11})/`. -/
def reVideoId : Re :=
  .seq
    (.alt
      (.seq (Re.lit (js "youtube.com/"))
        (.alt (.seq (Re.plus true (.cls (fun c => c != 47)))
                (.seq (Re.chr 47) (.seq (Re.plus true Re.dot) (Re.chr 47))))
          (.alt (.seq (.alt (Re.chr 118) (.seq (Re.chr 101) (Re.opt (Re.lit (js "mbed")))))
                  (Re.chr 47))
            (.seq (.star true Re.dot)
              (.seq (.cls (fun c => c == 63 || c == 38)) (Re.lit (js "v=")))))))
      (Re.lit (js "youtu.be/")))
    (.group 1 (Re.rep 11
      (.cls (fun c => !(c == 34 || c == 38 || c == 63 || c == 47 || isWhiteSpace c)))))

/-- The value of `url.match(...)?.[1]`. -/
def videoIdOf (url : JsString) : Option JsString :=
  (execFrom reVideoId 0 url).bind (fun r => capture r.2.caps 1)

/-- The body of the `try` block of `extractTranscript`: the value returned or the message
of the error thrown, and the calls made to the caption source. -/
def extractTranscriptTry (w : World) : Except JsString JsString × List FetchCall :=
  match videoIdOf w.href with
  | none => (.error (js "Could not find a valid YouTube video ID"), [])
  | some [] => (.error (js "Could not find a valid YouTube video ID"), [])
  | some (c :: cs) =>
    let videoId := c :: cs
    let first := w.fetchTranscript videoId (some (js "en"))
    let fetched : FetchResult × List FetchCall :=
      match first with
      | .ok t => (.ok t, [(videoId, some (js "en"))])
      | .error _ => (w.fetchTranscript videoId none, [(videoId, some (js "en")), (videoId, none)])
    match fetched.1 with
    | .error msg => (.error msg, fetched.2)
    | .ok none => (.error (js "Failed to get transcript"), fetched.2)
    | .ok (some []) => (.error (js "Failed to get transcript"), fetched.2)
    | .ok (some (e :: es)) =>
      (.ok (join [10] ((e :: es).map (fun entry =>
        formatTimestamp (fdiv entry.offset 1000) ++ js " " ++
          decodeHTMLEntities w.htmlUnescape entry.text))), fetched.2)

/-- The function `extractTranscript`: how its promise settles (`ok` is a resolved
promise, `error` a rejected one) and the calls made to the caption source. -/
def extractTranscript (w : World) : Except JsString JsString × List FetchCall :=
  match extractTranscriptTry w with
  | (.ok formattedTranscript, calls) => (.ok formattedTranscript, calls)
  | (.error message, calls) => (.ok (js "⚠ " ++ message), calls)

/-! ## `generateSummary` and `handleSummarize` -/

/-- What the element with id `summary` shows. -/
inductive Content where
  | text (s : JsString)
  | html (s : JsString)
deriving DecidableEq, Repr

/-- The element with id `summary`: its `style.display` and its content. -/
structure SummaryDiv where
  display : JsString
  content : Content
deriving DecidableEq, Repr

/-- The condition `!text || text.trim().length === 0`. -/
def isBlank (text : Option JsString) : Bool :=
  match text with
  | none => true
  | some t => t.isEmpty || (trim t).length == 0

/-- The first block of `generateSummary`: the text to summarise, or the message of the
error thrown. -/
def obtainText (w : World) (text : Option JsString) : Except JsString JsString × List FetchCall :=
  if isBlank text then
    match extractTranscript w with
    | (.ok t, calls) =>
      if isBlank (some t) then
        (.error (js "Failed to get transcript: " ++ js "No text provided to summarize"), calls)
      else (.ok t, calls)
    | (.error message, calls) => (.error (js "Failed to get transcript: " ++ message), calls)
  else (.ok (text.getD []), [])

/-- The template literal `prompt`. -/
def promptFor (text : JsString) : JsString :=
  js "\n            I need you to create a summary of this video transcript that is both detailed and easy to read.\n\n            Instructions:\n            1. If the transcript is not in English, translate it to English first\n            2. Break down the content into clear, logical sections\n            3. Use bullet points to highlight key information\n            4. Keep the summary concise while capturing the main ideas\n            5. Include any important quotes, statistics, or specific details\n            6. Format the output with HTML tags for better readability\n\n            Here is the transcript to summarize:\n            "
    ++ text ++ js "\n        "

/-- The `for await` loop over the response stream: `formattedContent` grows by each
chunk and the element, when it exists, receives the markup of the whole buffer. -/
def streamLoop : List StreamEvent → JsString → Option SummaryDiv →
    Except JsString JsString × Option SummaryDiv
  | [], formattedContent, div => (.ok formattedContent, div)
  | .error message :: _, _, div => (.error message, div)
  | .ok chunkText :: rest, formattedContent, div =>
    let formattedContent2 := formattedContent ++ chunkText
    streamLoop rest formattedContent2
      (div.map (fun d => { d with content := .html (wrappedSummary formattedContent2) }))

/-- The body of the `try` block of `generateSummary`. -/
def generateSummaryTry (w : World) (text : Option JsString) (div : Option SummaryDiv) :
    Except JsString JsString × Option SummaryDiv × List FetchCall :=
  match obtainText w text with
  | (.error message, calls) => (.error message, div, calls)
  | (.ok t, calls) =>
    match w.generateContentStream (promptFor t) with
    | .error message => (.error message, div, calls)
    | .ok stream =>
      let r := streamLoop stream [] div
      (r.1, r.2, calls)

/-- The `catch` block of `generateSummary`: the message of the error it throws. -/
def rethrownMessage (message : JsString) : JsString :=
  if includes message (js "API key") then
    js "❌ Invalid API key or quota exceeded. Please try again later."
  else if includes message (js "SAFETY") then
    js "⚠️ Content was blocked by safety filters. Please check the content and try again."
  else if includes message (js "timeout") then
    js "⏳ Request timed out. Please try again with a shorter transcript."
  else js "🔴 Summary generation failed: " ++ message

/-- The function `generateSummary`. -/
def generateSummary (w : World) (text : Option JsString) (div : Option SummaryDiv) :
    Except JsString JsString × Option SummaryDiv × List FetchCall :=
  match generateSummaryTry w text div with
  | (.ok formattedContent, div2, calls) => (.ok formattedContent, div2, calls)
  | (.error message, div2, calls) => (.error (rethrownMessage message), div2, calls)

/-- The function `handleSummarize`: the state of the element with id `summary` afterwards. -/
def handleSummarize (w : World) (div : Option SummaryDiv) : Option SummaryDiv :=
  match div with
  | none => none
  | some _ =>
    let loading : SummaryDiv :=
      { display := js "block", content := .text (js "Generating summary...") }
    match generateSummary w none (some loading) with
    | (.ok _, div2, _) => div2
    | (.error message, div2, _) =>
      div2.map (fun d =>
        { d with content := .text (js "⚠ Error generating summary: " ++ message) })

/-! ## The button and the panel -/

/-- An element of the page: tag, id, classes, and its nesting depth in the tree. -/
structure Element where
  tag : String
  id : String
  classes : List String
  depth : Nat
deriving DecidableEq, Repr

/-- The document: its elements in tree order. -/
abbrev Document := List Element

/-- Index of the first element satisfying a predicate, in tree order. -/
def findIndex (p : Element → Bool) : Document → Option Nat
  | [] => none
  | e :: es => if p e then some 0 else (findIndex p es).map (· + 1)

def hasClass (c : String) (e : Element) : Bool := e.classes.contains c

def hasId (i : String) (e : Element) : Bool := e.id == i

/-- Number of leading elements nested deeper than `d`: the size of a subtree whose root
has depth `d` and is followed by these elements. -/
def subtreeLen (d : Nat) : Document → Nat
  | [] => 0
  | e :: es => if d < e.depth then 1 + subtreeLen d es else 0

/-- Insert a detached subtree at an index, its root placed at depth `d`. -/
def insertAt (doc : Document) (k d : Nat) (sub : Document) : Document :=
  doc.take k ++ sub.map (fun e => { e with depth := e.depth + d }) ++ doc.drop k

/-- The button built by `createSummaryButton`, with the nodes of its `innerHTML`. -/
def summaryButton : Document :=
  [⟨"button", "", ["ytp-button", "summary-btn"], 0⟩, ⟨"svg", "", [], 1⟩, ⟨"path", "", [], 2⟩]

/-- The panel built by `createSummaryPanel`, with the nodes of its `innerHTML`. -/
def summaryPanel : Document :=
  [⟨"div", "summary-panel", ["summary-panel"], 0⟩,
   ⟨"div", "", ["summary-header"], 1⟩,
   ⟨"h2", "", [], 2⟩,
   ⟨"div", "", ["summary-controls"], 2⟩,
   ⟨"button", "generateSummary", ["summary-btn"], 3⟩,
   ⟨"svg", "", [], 4⟩,
   ⟨"path", "", [], 5⟩,
   ⟨"path", "", [], 5⟩,
   ⟨"div", "", ["summary-content"], 1⟩,
   ⟨"div", "summary", [], 2⟩]

/-- The function `createSummaryButton`. -/
def createSummaryButton (doc : Document) : Document :=
  if (findIndex (hasClass "summary-btn") doc).isSome then doc
  else
    match findIndex (hasClass "ytp-right-controls") doc with
    | none => doc
    | some i =>
      let d := ((doc.get? i).map (·.depth)).getD 0
      insertAt doc (i + 1 + subtreeLen d (doc.drop (i + 1))) (d + 1) summaryButton

/-- The function `createSummaryPanel`. -/
def createSummaryPanel (doc : Document) : Document :=
  if (findIndex (hasId "summary-panel") doc).isSome then doc
  else
    match (findIndex (hasId "primary-inner") doc).orElse
        (fun _ => findIndex (hasId "primary") doc) with
    | none => doc
    | some i =>
      let d := ((doc.get? i).map (·.depth)).getD 0
      let inside := (doc.drop (i + 1)).take (subtreeLen d (doc.drop (i + 1)))
      match findIndex (hasId "player") inside with
      | some j =>
        let k := i + 1 + j
        let dp := ((doc.get? k).map (·.depth)).getD 0
        insertAt doc (k + 1 + subtreeLen dp (doc.drop (k + 1))) dp summaryPanel
      | none => insertAt doc (i + 1) (d + 1) summaryPanel

/-- The function `initializeExtension`. -/
def initializeExtension (doc : Document) : Document :=
  createSummaryPanel (createSummaryButton doc)

/-- The page: the path of its URL and its document. -/
structure Page where
  pathname : String
  doc : Document
deriving DecidableEq, Repr

/-- The callback of the `MutationObserver`. -/
def observer (page : Page) : Page :=
  if page.pathname = "/watch" ∧ ¬ (findIndex (hasClass "summary-btn") page.doc).isSome then
    { page with doc := initializeExtension page.doc }
  else page

/-- The initial run at the end of the script. -/
def initialRun (page : Page) : Page :=
  if page.pathname = "/watch" then { page with doc := initializeExtension page.doc } else page

/-- The toggle button of the player controls. -/
def isToggleButton (e : Element) : Bool :=
  e.tag == "button" && hasClass "ytp-button" e && hasClass "summary-btn" e

/-- The summary panel. -/
def isSummaryPanel (e : Element) : Bool := hasId "summary-panel" e

/-! ## Auxiliary definitions for the statements -/

/-- The categories the `catch` block of `generateSummary` distinguishes. -/
inductive ErrorCategory where
  | authOrQuota
  | safetyBlock
  | timeout
  | other
deriving DecidableEq, Repr

/-- The category the `catch` block of `generateSummary` assigns to an error message. -/
def categoryOf (message : JsString) : ErrorCategory :=
  if includes message (js "API key") then .authOrQuota
  else if includes message (js "SAFETY") then .safetyBlock
  else if includes message (js "timeout") then .timeout
  else .other

/-- The glyph that starts the message rethrown for a category. -/
def glyphOf : ErrorCategory → JsString
  | .authOrQuota => js "❌"
  | .safetyBlock => js "⚠️"
  | .timeout => js "⏳"
  | .other => js "🔴"

/-- The state of the element with id `summary` that `handleSummarize` passes on. -/
def loadingDiv : SummaryDiv :=
  { display := js "block", content := .text (js "Generating summary...") }

/-- A page without a video identifier whose summarisation request fails with a message. -/
def worldFailingWith (message : JsString) : World :=
  { href := js "https://www.youtube.com/"
    fetchTranscript := fun _ _ => .ok none
    generateContentStream := fun _ => .error message
    htmlUnescape := id }

/-- A page whose summarisation request streams the given chunks. -/
def worldStreaming (chunks : List JsString) : World :=
  { href := []
    fetchTranscript := fun _ _ => .ok none
    generateContentStream := fun _ => .ok (chunks.map Except.ok)
    htmlUnescape := id }

/-- Two chunks that cut a two-item list in the middle. -/
def sampleChunks : List JsString := [js "* a", js "\n* b"]

/-- A watch page whose player controls have not been built yet. -/
def pageBeforeControls : Page :=
  { pathname := "/watch"
    doc := [⟨"body", "", [], 0⟩, ⟨"div", "primary", [], 1⟩, ⟨"div", "player", [], 2⟩] }

/-- The host page adds the player controls container inside the player. -/
def addPlayerControls (page : Page) : Page :=
  { page with doc := insertAt page.doc 3 3 [⟨"div", "", ["ytp-right-controls"], 0⟩] }

/-- A watch page with its player controls in place. -/
def pageWithControls : Page :=
  { pathname := "/watch"
    doc := [⟨"body", "", [], 0⟩, ⟨"div", "primary", [], 1⟩, ⟨"div", "player", [], 2⟩,
            ⟨"div", "", ["ytp-right-controls"], 3⟩] }

/-- A list-item element of the formatted markup. -/
def isListItem (e : JsString) : Bool := startsWith e (js "<li")

/-- The elements the per-line transform yields for a buffer, in order: the markup of
every line that is not empty after trimming. -/
def formattedElements (buffer : JsString) : List JsString :=
  ((split 10 buffer).map formatLine).filter (fun l => decide (l.length > 0))

/-- The grouping as the specification words it: every maximal run of consecutive
list-item elements is wrapped in one list container, headings and paragraphs are left
outside; the elements stay separated by the newline that joined them, and the newline
after the last item of a run is inside the container.  The flag tells whether a
container is open. -/
def groupRuns : Bool → List JsString → JsString
  | inList, [] => if inList then ulClose else []
  | inList, e :: rest =>
    let sep : JsString := if rest.isEmpty then [] else [10]
    if isListItem e then
      (if inList then [] else ulOpen) ++ e ++ sep ++ groupRuns true rest
    else (if inList then ulClose else []) ++ e ++ sep ++ groupRuns false rest

/-- A trimmed line that holds no line terminator and no closing tag `</li>`. -/
def cleanLine (l : JsString) : Bool :=
  l.all (fun c => !isLineTerminator c) && !includes l (js "</li>")

/-- A trimmed line that holds no closing tag `</li>` and that, when it becomes a list item
(it starts with `*` and does not end with `:`), holds no line terminator. -/
def wellFormedLine (l : JsString) : Bool :=
  !includes l (js "</li>") &&
    (!(startsWith l (js "*") && !endsWith l (js ":")) || l.all (fun c => !isLineTerminator c))

/-- A buffer all of whose trimmed lines are well formed. -/
def cleanBuffer (buffer : JsString) : Bool :=
  (split 10 buffer).all (fun l => wellFormedLine (trim l))

/-- The text of the leading run of list items of a list of elements, with the newline
that follows each item when another element comes after it. -/
def runText : List JsString → JsString
  | [] => []
  | e :: rest =>
    if isListItem e then e ++ (if rest.isEmpty then [] else [10]) ++ runText rest else []

/-- Whether the text `w` starts somewhere in `s` before the first line terminator of `s`. -/
def occursBeforeBreak (w : JsString) : JsString → Bool
  | [] => w.isPrefixOf []
  | c :: cs => w.isPrefixOf (c :: cs) || (!isLineTerminator c && occursBeforeBreak w cs)

/-- The markup of a list item: `<li`, attributes without `>`, `>`, a clean content and
the closing tag. -/
def ItemLine (l : JsString) : Prop :=
  ∃ attrs content : JsString, l = js "<li" ++ (attrs ++ 62 :: (content ++ js "</li>")) ∧
    (∀ c ∈ attrs, (c != 62) = true) ∧ cleanLine content = true

/-- The markup of a heading or a paragraph around a line without closing tag `</li>`. -/
def BlockLine (l : JsString) : Prop :=
  ∃ line : JsString, includes line (js "</li>") = false ∧
    (l = h2Open ++ (line ++ h2Close) ∨ l = pOpen ++ (line ++ pClose))

/-- A text that follows a line in the joined markup: nothing, or a newline and more. -/
def NewlineLed (t : JsString) : Prop := t = [] ∨ ∃ t2, t = 10 :: t2

/-- The text `w` starts at no position of `l` in the text `l ++ t`, the position right
after `l` included. -/
def NoStartIn (w l t : JsString) : Prop :=
  ∀ a b : JsString, l = a ++ b → w.isPrefixOf (b ++ t) = false

/-! ## Theorems -/

/-! ### The button and the panel -/

theorem findIndex_isSome_of_mem (p : Element → Bool) (doc : Document) (e : Element)
    (he : e ∈ doc) (hp : p e = true) : (findIndex p doc).isSome = true := by
  induction doc with
  | nil => cases he
  | cons x xs ih =>
    by_cases hx : p x = true
    · simp [findIndex, hx]
    · rcases List.mem_cons.mp he with h | h
      · exact absurd (h ▸ hp) hx
      · simp [findIndex, hx, ih h]

theorem createSummaryButton_of_present (doc : Document)
    (h : (findIndex (hasClass "summary-btn") doc).isSome = true) :
    createSummaryButton doc = doc := by
  simp [createSummaryButton, h]

theorem createSummaryPanel_of_present (doc : Document)
    (h : (findIndex (hasId "summary-panel") doc).isSome = true) :
    createSummaryPanel doc = doc := by
  simp [createSummaryPanel, h]

theorem initializeExtension_of_present (doc : Document)
    (hb : ∃ e ∈ doc, isToggleButton e = true) (hp : ∃ e ∈ doc, isSummaryPanel e = true) :
    initializeExtension doc = doc := by
  obtain ⟨b, hbm, hbp⟩ := hb
  obtain ⟨q, hqm, hqp⟩ := hp
  have h1 : (findIndex (hasClass "summary-btn") doc).isSome = true := by
    apply findIndex_isSome_of_mem _ _ b hbm
    simp only [isToggleButton, Bool.and_eq_true] at hbp
    exact hbp.2
  have h2 : (findIndex (hasId "summary-panel") doc).isSome = true :=
    findIndex_isSome_of_mem _ _ q hqm hqp
  unfold initializeExtension
  rw [createSummaryButton_of_present doc h1, createSummaryPanel_of_present doc h2]

/-- C10: on a page that has exactly one toggle button and exactly one summary panel, any
number of runs of `initializeExtension` leaves the document as it is, so there is still
exactly one toggle button and exactly one summary panel. -/
theorem initializeExtension_idempotent (doc : Document) (n : Nat)
    (hb : doc.countP isToggleButton = 1) (hp : doc.countP isSummaryPanel = 1) :
    initializeExtension^[n] doc = doc ∧
      (initializeExtension^[n] doc).countP isToggleButton = 1 ∧
      (initializeExtension^[n] doc).countP isSummaryPanel = 1 := by
  have hb2 : ∃ e ∈ doc, isToggleButton e = true := by
    apply List.countP_pos_iff.mp
    omega
  have hp2 : ∃ e ∈ doc, isSummaryPanel e = true := by
    apply List.countP_pos_iff.mp
    omega
  have hfix : initializeExtension^[n] doc = doc :=
    Function.iterate_fixed (initializeExtension_of_present doc hb2 hp2) n
  rw [hfix]
  exact ⟨rfl, hb, hp⟩

theorem initializeExtension_idempotent_witness :
    (initialRun pageWithControls).doc.countP isToggleButton = 1 ∧
    (initialRun pageWithControls).doc.countP isSummaryPanel = 1 ∧
    initializeExtension^[3] (initialRun pageWithControls).doc = (initialRun pageWithControls).doc ∧
      (initializeExtension^[3] (initialRun pageWithControls).doc).countP isToggleButton = 1 ∧
      (initializeExtension^[3] (initialRun pageWithControls).doc).countP isSummaryPanel = 1 :=
  ⟨by decide, by decide,
    initializeExtension_idempotent (initialRun pageWithControls).doc 3 (by decide) (by decide)⟩

/-- C9 (evaluation of the code): the script starts on a watch page whose player controls
are not built yet and inserts the panel; the host page then adds the controls container;
at that mutation the path is `/watch`, the controls container is present and there is no
toggle button, yet the observer callback leaves the page as it is, because the button
inside the panel carries the class `summary-btn` that the guard looks for. -/
theorem observer_skips_after_panel :
    (addPlayerControls (initialRun pageBeforeControls)).pathname = "/watch" ∧
    (findIndex (hasClass "ytp-right-controls")
      (addPlayerControls (initialRun pageBeforeControls)).doc).isSome = true ∧
    (findIndex (hasId "summary-panel")
      (addPlayerControls (initialRun pageBeforeControls)).doc).isSome = true ∧
    (addPlayerControls (initialRun pageBeforeControls)).doc.countP isToggleButton = 0 ∧
    observer (addPlayerControls (initialRun pageBeforeControls)) =
      addPlayerControls (initialRun pageBeforeControls) ∧
    (observer (addPlayerControls (initialRun pageBeforeControls))).doc.countP isToggleButton = 0 ∧
    (initializeExtension (addPlayerControls (initialRun pageBeforeControls)).doc).countP
      isToggleButton = 0 := by
  decide

/-! ### The stream loop, `generateSummary` and `handleSummarize` -/

theorem streamLoop_append_ok (xs : List JsString) (ys : List StreamEvent) (fc : JsString)
    (d : SummaryDiv) :
    streamLoop (xs.map Except.ok ++ ys) fc (some d) =
      streamLoop ys (fc ++ xs.flatten)
        (some (if xs = [] then d else { d with content := .html (wrappedSummary (fc ++ xs.flatten)) })) := by
  induction xs generalizing fc d with
  | nil => simp
  | cons x xs ih =>
    show streamLoop (xs.map Except.ok ++ ys) (fc ++ x)
        (some { d with content := .html (wrappedSummary (fc ++ x)) }) = _
    rw [ih, List.flatten_cons]
    by_cases hx : xs = []
    · subst hx
      simp
    · simp [hx, List.append_assoc]

theorem streamLoop_ok (xs : List JsString) (fc : JsString) (d : SummaryDiv) :
    streamLoop (xs.map Except.ok) fc (some d) =
      (.ok (fc ++ xs.flatten),
        some (if xs = [] then d else { d with content := .html (wrappedSummary (fc ++ xs.flatten)) })) := by
  have h := streamLoop_append_ok xs [] fc d
  simpa [streamLoop] using h

theorem streamLoop_div (evs : List StreamEvent) (fc : JsString) (d : SummaryDiv) :
    ∃ d2, (streamLoop evs fc (some d)).2 = some d2 ∧ d2.display = d.display := by
  induction evs generalizing fc d with
  | nil => exact ⟨d, rfl, rfl⟩
  | cons e es ih =>
    cases e with
    | error m => exact ⟨d, rfl, rfl⟩
    | ok c =>
      simp only [streamLoop, Option.map_some']
      obtain ⟨d2, h1, h2⟩ := ih (fc ++ c) { d with content := .html (wrappedSummary (fc ++ c)) }
      exact ⟨d2, h1, h2⟩

/-- C4: when the response stream delivers the chunks `cs` (at least one), the run of the
loop passes, after chunk `k`, through the state whose buffer is the concatenation of the
first `k` chunks and whose summary element holds the formatter's markup of exactly that
concatenation; two chunk sequences with the same concatenation end in the same state of
the element; and `generateSummary` returns the raw concatenation. -/
theorem stream_markup_depends_on_buffer (w : World) (text : Option JsString) (t : JsString)
    (calls : List FetchCall) (d : SummaryDiv) (cs : List JsString) (hcs : cs ≠ [])
    (htext : obtainText w text = (.ok t, calls))
    (hstream : w.generateContentStream (promptFor t) = .ok (cs.map Except.ok)) :
    (∀ k, 1 ≤ k → k ≤ cs.length →
      (streamLoop ((cs.take k).map Except.ok) [] (some d)).2 =
          some { d with content := .html (wrappedSummary (cs.take k).flatten) } ∧
      streamLoop (cs.map Except.ok) [] (some d) =
        streamLoop ((cs.drop k).map Except.ok) (cs.take k).flatten
          (some { d with content := .html (wrappedSummary (cs.take k).flatten) })) ∧
    (∀ ds : List JsString, ds ≠ [] → ds.flatten = cs.flatten →
      streamLoop (ds.map Except.ok) [] (some d) = streamLoop (cs.map Except.ok) [] (some d)) ∧
    generateSummary w text (some d) =
      (.ok cs.flatten, some { d with content := .html (wrappedSummary cs.flatten) }, calls) := by
  refine ⟨?_, ?_, ?_⟩
  · intro k hk1 hk2
    have hne : cs.take k ≠ [] := by
      intro h
      have hlen := congrArg List.length h
      simp only [List.length_take, List.length_nil] at hlen
      omega
    constructor
    · rw [streamLoop_ok]
      simp [hne]
    · have h := streamLoop_append_ok (cs.take k) ((cs.drop k).map Except.ok) [] d
      rw [← List.map_append, List.take_append_drop] at h
      rw [h]
      simp [hne]
  · intro ds hds hflat
    rw [streamLoop_ok, streamLoop_ok]
    simp [hds, hcs, hflat]
  · simp only [generateSummary, generateSummaryTry, htext, hstream]
    rw [streamLoop_ok]
    simp [hcs]

theorem stream_markup_depends_on_buffer_witness :
    sampleChunks ≠ [] ∧
    obtainText (worldStreaming sampleChunks) (some (js "text")) = (.ok (js "text"), []) ∧
    (worldStreaming sampleChunks).generateContentStream (promptFor (js "text")) =
      .ok (sampleChunks.map Except.ok) ∧
    (∀ k, 1 ≤ k → k ≤ sampleChunks.length →
      (streamLoop ((sampleChunks.take k).map Except.ok) [] (some loadingDiv)).2 =
          some { loadingDiv with content := .html (wrappedSummary (sampleChunks.take k).flatten) } ∧
      streamLoop (sampleChunks.map Except.ok) [] (some loadingDiv) =
        streamLoop ((sampleChunks.drop k).map Except.ok) (sampleChunks.take k).flatten
          (some { loadingDiv with
            content := .html (wrappedSummary (sampleChunks.take k).flatten) })) ∧
    (∀ ds : List JsString, ds ≠ [] → ds.flatten = sampleChunks.flatten →
      streamLoop (ds.map Except.ok) [] (some loadingDiv) =
        streamLoop (sampleChunks.map Except.ok) [] (some loadingDiv)) ∧
    generateSummary (worldStreaming sampleChunks) (some (js "text")) (some loadingDiv) =
      (.ok sampleChunks.flatten,
        some { loadingDiv with content := .html (wrappedSummary sampleChunks.flatten) }, []) :=
  ⟨by decide, by rfl, rfl,
    stream_markup_depends_on_buffer (worldStreaming sampleChunks) (some (js "text")) (js "text")
      [] loadingDiv sampleChunks (by decide) (by rfl) rfl⟩

theorem rethrownMessage_glyph (message : JsString) :
    ∃ tail, rethrownMessage message = glyphOf (categoryOf message) ++ tail := by
  unfold rethrownMessage categoryOf
  by_cases h1 : includes message (js "API key") = true
  · rw [if_pos h1, if_pos h1]
    exact ⟨js " Invalid API key or quota exceeded. Please try again later.", by decide⟩
  · rw [if_neg h1, if_neg h1]
    by_cases h2 : includes message (js "SAFETY") = true
    · rw [if_pos h2, if_pos h2]
      exact ⟨js " Content was blocked by safety filters. Please check the content and try again.",
        by decide⟩
    · rw [if_neg h2, if_neg h2]
      by_cases h3 : includes message (js "timeout") = true
      · rw [if_pos h3, if_pos h3]
        exact ⟨js " Request timed out. Please try again with a shorter transcript.", by decide⟩
      · rw [if_neg h3, if_neg h3]
        refine ⟨js " Summary generation failed: " ++ message, ?_⟩
        have hd : js "🔴 Summary generation failed: " =
            glyphOf ErrorCategory.other ++ js " Summary generation failed: " := by decide
        rw [hd, List.append_assoc]

theorem generateSummaryTry_div (w : World) (text : Option JsString) (d : SummaryDiv) :
    ∃ d2, (generateSummaryTry w text (some d)).2.1 = some d2 ∧ d2.display = d.display := by
  unfold generateSummaryTry
  split
  · exact ⟨d, rfl, rfl⟩
  · split
    · exact ⟨d, rfl, rfl⟩
    · exact streamLoop_div _ _ _

theorem rethrownMessage_cases (message : JsString) :
    rethrownMessage message =
      (match categoryOf message with
        | .authOrQuota => js "❌ Invalid API key or quota exceeded. Please try again later."
        | .safetyBlock =>
          js "⚠️ Content was blocked by safety filters. Please check the content and try again."
        | .timeout => js "⏳ Request timed out. Please try again with a shorter transcript."
        | .other => js "🔴 Summary generation failed: " ++ message) := by
  unfold rethrownMessage categoryOf
  by_cases h1 : includes message (js "API key") = true
  · rw [if_pos h1, if_pos h1]
  · rw [if_neg h1, if_neg h1]
    by_cases h2 : includes message (js "SAFETY") = true
    · rw [if_pos h2, if_pos h2]
    · rw [if_neg h2, if_neg h2]
      by_cases h3 : includes message (js "timeout") = true
      · rw [if_pos h3, if_pos h3]
      · rw [if_neg h3, if_neg h3]

theorem generateSummary_error (w : World) (message : JsString)
    (h : (generateSummaryTry w none (some loadingDiv)).1 = .error message) :
    ∃ d2 calls, d2.display = js "block" ∧
      generateSummary w none (some loadingDiv) =
        (.error (rethrownMessage message), some d2, calls) := by
  obtain ⟨d2, hd2, hdisp⟩ := generateSummaryTry_div w none loadingDiv
  refine ⟨d2, (generateSummaryTry w none (some loadingDiv)).2.2, by rw [hdisp]; rfl, ?_⟩
  unfold generateSummary
  rcases hr : generateSummaryTry w none (some loadingDiv) with ⟨r, dv, cl⟩
  rw [hr] at h hd2
  simp only at h hd2
  subst h
  subst hd2
  rfl

/-- C8 (as amended): whenever the pipeline raises an error with message `message`,
`generateSummary` rethrows the message that the `catch` block assigns to the category of
the error, and the text that `handleSummarize` writes into the summary element is the fixed
prefix `⚠ Error generating summary: ` followed by exactly that rethrown message; the
rethrown message begins with the glyph of the category, and the glyphs of two different
categories differ already in their first code unit. -/
theorem handleSummarize_error_text (w : World) (d0 : SummaryDiv) (message : JsString)
    (h : (generateSummaryTry w none (some loadingDiv)).1 = .error message) :
    (generateSummary w none (some loadingDiv)).1 = .error (rethrownMessage message) ∧
    handleSummarize w (some d0) =
      some { display := js "block",
             content := .text (js "⚠ Error generating summary: " ++ rethrownMessage message) } ∧
    rethrownMessage message =
      (match categoryOf message with
        | .authOrQuota => js "❌ Invalid API key or quota exceeded. Please try again later."
        | .safetyBlock =>
          js "⚠️ Content was blocked by safety filters. Please check the content and try again."
        | .timeout => js "⏳ Request timed out. Please try again with a shorter transcript."
        | .other => js "🔴 Summary generation failed: " ++ message) ∧
    (∃ tail, rethrownMessage message = glyphOf (categoryOf message) ++ tail) ∧
    (∀ c1 c2 : ErrorCategory, (glyphOf c1).head? = (glyphOf c2).head? → c1 = c2) := by
  obtain ⟨d2, calls, hdisp, hgen⟩ := generateSummary_error w message h
  refine ⟨by rw [hgen], ?_, rethrownMessage_cases message, rethrownMessage_glyph message, ?_⟩
  · simp only [handleSummarize]
    show (match generateSummary w none (some loadingDiv) with
      | (.ok _, div2, _) => div2
      | (.error message, div2, _) =>
        div2.map (fun d : SummaryDiv =>
          { d with content := .text (js "⚠ Error generating summary: " ++ message) })) = _
    rw [hgen]
    simp only [Option.map_some', hdisp]
  · intro c1 c2
    cases c1 <;> cases c2 <;> decide

set_option maxHeartbeats 4000000 in
set_option maxRecDepth 100000 in
theorem handleSummarize_error_text_witness :
    (generateSummaryTry (worldFailingWith (js "request timeout")) none (some loadingDiv)).1 =
      .error (js "request timeout") ∧
    (generateSummary (worldFailingWith (js "request timeout")) none (some loadingDiv)).1 =
      .error (rethrownMessage (js "request timeout")) ∧
    handleSummarize (worldFailingWith (js "request timeout")) (some ⟨js "none", .text []⟩) =
      some { display := js "block",
             content := .text (js "⚠ Error generating summary: " ++
               rethrownMessage (js "request timeout")) } ∧
    rethrownMessage (js "request timeout") =
      (match categoryOf (js "request timeout") with
        | .authOrQuota => js "❌ Invalid API key or quota exceeded. Please try again later."
        | .safetyBlock =>
          js "⚠️ Content was blocked by safety filters. Please check the content and try again."
        | .timeout => js "⏳ Request timed out. Please try again with a shorter transcript."
        | .other => js "🔴 Summary generation failed: " ++ js "request timeout") ∧
    (∃ tail, rethrownMessage (js "request timeout") =
      glyphOf (categoryOf (js "request timeout")) ++ tail) ∧
    (∀ c1 c2 : ErrorCategory, (glyphOf c1).head? = (glyphOf c2).head? → c1 = c2) :=
  ⟨by rfl, handleSummarize_error_text (worldFailingWith (js "request timeout"))
    ⟨js "none", .text []⟩ (js "request timeout") (by rfl)⟩

set_option maxHeartbeats 4000000 in
set_option maxRecDepth 100000 in
/-- C8 (counterexample): an authorization error and a timeout belong to different
categories, yet the texts written into the summary element for them begin with the same
glyph, the warning sign of the fixed prefix. -/
theorem handleSummarize_same_leading_glyph :
    categoryOf (js "API key not valid") ≠ categoryOf (js "request timeout") ∧
    handleSummarize (worldFailingWith (js "API key not valid")) (some ⟨js "none", .text []⟩) =
      some ⟨js "block", .text (js "⚠ Error generating summary: ❌ Invalid API key or quota exceeded. Please try again later.")⟩ ∧
    handleSummarize (worldFailingWith (js "request timeout")) (some ⟨js "none", .text []⟩) =
      some ⟨js "block", .text (js "⚠ Error generating summary: ⏳ Request timed out. Please try again with a shorter transcript.")⟩ ∧
    (js "⚠ Error generating summary: ❌ Invalid API key or quota exceeded. Please try again later.").head? =
      (js "⚠ Error generating summary: ⏳ Request timed out. Please try again with a shorter transcript.").head? := by
  decide

/-! ### `extractTranscript` -/

/-- C5 (evaluation of the code): when the pattern finds no video identifier in the URL,
`extractTranscript` makes no call to the caption source, but its promise is resolved, not
rejected: it returns the warning text as its value, and `generateSummary` accepts that
text as the transcript to summarise. -/
theorem extractTranscript_without_video_id (w : World) (h : videoIdOf w.href = none) :
    extractTranscript w = (.ok (js "⚠ Could not find a valid YouTube video ID"), []) ∧
    obtainText w none = (.ok (js "⚠ Could not find a valid YouTube video ID"), []) := by
  have h1 : extractTranscript w = (.ok (js "⚠ Could not find a valid YouTube video ID"), []) := by
    simp only [extractTranscript, extractTranscriptTry, h]
    have : js "⚠ " ++ js "Could not find a valid YouTube video ID" =
        js "⚠ Could not find a valid YouTube video ID" := by decide
    rw [this]
  refine ⟨h1, ?_⟩
  have hb : isBlank (some (js "⚠ Could not find a valid YouTube video ID")) = false := by decide
  have hn : isBlank none = true := rfl
  unfold obtainText
  rw [if_pos hn, h1]
  simp only [hb, Bool.false_eq_true, if_false]

set_option maxHeartbeats 4000000 in
set_option maxRecDepth 100000 in
theorem extractTranscript_without_video_id_witness :
    videoIdOf (worldFailingWith []).href = none ∧
    extractTranscript (worldFailingWith []) =
      (.ok (js "⚠ Could not find a valid YouTube video ID"), []) ∧
    obtainText (worldFailingWith []) none =
      (.ok (js "⚠ Could not find a valid YouTube video ID"), []) :=
  ⟨by decide, extractTranscript_without_video_id (worldFailingWith []) (by decide)⟩

/-! ### `decodeHTMLEntities` -/

/-- C6 (evaluation of the code): for the code point 128512 (U+1F600), both the decimal
reference `&#128512;` and the hexadecimal reference `&#x1F600;` are replaced by the single
code unit 62976 (U+F600) before the `textarea` step receives the text, which is not the
UTF-16 encoding of the character at that code point; the references for code point 65
decode to `A` when the `textarea` step leaves `A` alone. -/
theorem decodeHTMLEntities_astral (htmlUnescape : JsString → JsString) :
    decodeHTMLEntities htmlUnescape (js "&#128512;") = htmlUnescape [62976] ∧
    decodeHTMLEntities htmlUnescape (js "&#x1F600;") = htmlUnescape [62976] ∧
    decodeHTMLEntities htmlUnescape (js "&#x1f600;") = htmlUnescape [62976] ∧
    [62976] ≠ js "😀" ∧
    decodeHTMLEntities htmlUnescape (js "&#65;") = htmlUnescape (js "A") ∧
    decodeHTMLEntities htmlUnescape (js "&#x41;") = htmlUnescape (js "A") := by
  refine ⟨?_, ?_, ?_, by decide, ?_, ?_⟩ <;>
  · unfold decodeHTMLEntities
    congr 1

/-! ### The matcher -/

theorem reMatch_seq (a b : Re) (st : MatchState) :
    reMatch (.seq a b) st = (reMatch a st).flatMap (reMatch b) := by
  simp [reMatch]

theorem reMatch_seq_assoc (a b c : Re) (st : MatchState) :
    reMatch (.seq (.seq a b) c) st = reMatch (.seq a (.seq b c)) st := by
  have h : reMatch (b.seq c) = fun x => (reMatch b x).flatMap (reMatch c) :=
    funext (reMatch_seq b c)
  rw [reMatch_seq (a.seq b) c, reMatch_seq a b, reMatch_seq a (b.seq c), List.flatMap_assoc, h]

theorem reMatch_cls_nil (p : Nat → Bool) (pos : Nat) (caps : List (Nat × JsString)) :
    reMatch (.cls p) ⟨pos, [], caps⟩ = [] := by
  simp [reMatch]

theorem reMatch_cls_cons (p : Nat → Bool) (pos : Nat) (c : Nat) (cs : JsString)
    (caps : List (Nat × JsString)) :
    reMatch (.cls p) ⟨pos, c :: cs, caps⟩ = if p c then [⟨pos + 1, cs, caps⟩] else [] := by
  simp [reMatch]

theorem reMatch_cls_seq_cons (p : Nat → Bool) (K : Re) (pos : Nat) (c : Nat) (cs : JsString)
    (caps : List (Nat × JsString)) :
    reMatch (.seq (.cls p) K) ⟨pos, c :: cs, caps⟩ =
      if p c then reMatch K ⟨pos + 1, cs, caps⟩ else [] := by
  rw [reMatch_seq, reMatch_cls_cons]
  split <;> simp

theorem reMatch_cls_seq_nil (p : Nat → Bool) (K : Re) (pos : Nat)
    (caps : List (Nat × JsString)) :
    reMatch (.seq (.cls p) K) ⟨pos, [], caps⟩ = [] := by
  rw [reMatch_seq, reMatch_cls_nil]
  rfl

theorem reMatch_lit (w : JsString) (pos : Nat) (s : JsString) (caps : List (Nat × JsString)) :
    reMatch (Re.lit w) ⟨pos, s, caps⟩ =
      if w.isPrefixOf s then [⟨pos + w.length, s.drop w.length, caps⟩] else [] := by
  induction w generalizing pos s with
  | nil => simp [Re.lit, reMatch]
  | cons c cs ih =>
    cases s with
    | nil => simp [Re.lit, Re.chr, reMatch_cls_seq_nil]
    | cons x xs =>
      simp only [Re.lit, Re.chr, reMatch_cls_seq_cons, ih, List.isPrefixOf_cons₂,
        List.length_cons, List.drop_succ_cons]
      by_cases hx : x = c
      · subst hx
        simp [Nat.add_assoc, Nat.add_comm 1]
      · have hx2 : ¬ c = x := fun h => hx h.symm
        simp [hx, hx2]

theorem reMatch_lit_seq (w : JsString) (K : Re) (pos : Nat) (s : JsString)
    (caps : List (Nat × JsString)) :
    reMatch (.seq (Re.lit w) K) ⟨pos, s, caps⟩ =
      if w.isPrefixOf s then reMatch K ⟨pos + w.length, s.drop w.length, caps⟩ else [] := by
  rw [reMatch_seq, reMatch_lit]
  split <;> simp

theorem reMatch_star_nil (g : Bool) (r : Re) (pos : Nat) (caps : List (Nat × JsString)) :
    reMatch (.star g r) ⟨pos, [], caps⟩ = [⟨pos, [], caps⟩] := by
  simp [reMatch, starLoop]

theorem reMatch_star_greedy_cons (p : Nat → Bool) (pos : Nat) (c : Nat) (cs : JsString)
    (caps : List (Nat × JsString)) :
    reMatch (.star true (.cls p)) ⟨pos, c :: cs, caps⟩ =
      (if p c then reMatch (.star true (.cls p)) ⟨pos + 1, cs, caps⟩ else []) ++
        [⟨pos, c :: cs, caps⟩] := by
  by_cases h : p c = true <;> simp [reMatch, starLoop, h]

theorem reMatch_star_lazy_cons (p : Nat → Bool) (pos : Nat) (c : Nat) (cs : JsString)
    (caps : List (Nat × JsString)) :
    reMatch (.star false (.cls p)) ⟨pos, c :: cs, caps⟩ =
      ⟨pos, c :: cs, caps⟩ ::
        (if p c then reMatch (.star false (.cls p)) ⟨pos + 1, cs, caps⟩ else []) := by
  by_cases h : p c = true <;> simp [reMatch, starLoop, h]

/-- A greedy class quantifier followed by a pattern: first the longer runs. -/
theorem reMatch_greedy_seq_cons (p : Nat → Bool) (K : Re) (pos : Nat) (c : Nat) (cs : JsString)
    (caps : List (Nat × JsString)) :
    reMatch (.seq (.star true (.cls p)) K) ⟨pos, c :: cs, caps⟩ =
      (if p c then reMatch (.seq (.star true (.cls p)) K) ⟨pos + 1, cs, caps⟩ else []) ++
        reMatch K ⟨pos, c :: cs, caps⟩ := by
  rw [reMatch_seq, reMatch_star_greedy_cons, List.flatMap_append]
  by_cases h : p c = true <;> simp [h, reMatch_seq]

theorem reMatch_star_seq_nil (g : Bool) (r K : Re) (pos : Nat) (caps : List (Nat × JsString)) :
    reMatch (.seq (.star g r) K) ⟨pos, [], caps⟩ = reMatch K ⟨pos, [], caps⟩ := by
  rw [reMatch_seq, reMatch_star_nil]
  simp

/-- A lazy class quantifier followed by a pattern: first the shorter runs. -/
theorem reMatch_lazy_seq_cons (p : Nat → Bool) (K : Re) (pos : Nat) (c : Nat) (cs : JsString)
    (caps : List (Nat × JsString)) :
    reMatch (.seq (.star false (.cls p)) K) ⟨pos, c :: cs, caps⟩ =
      reMatch K ⟨pos, c :: cs, caps⟩ ++
        (if p c then reMatch (.seq (.star false (.cls p)) K) ⟨pos + 1, cs, caps⟩ else []) := by
  rw [reMatch_seq, reMatch_star_lazy_cons, List.flatMap_cons]
  by_cases h : p c = true <;> simp [h, reMatch_seq]

/-- A greedy run of a class followed by a code unit outside the class: the run is taken
whole. -/
theorem reMatch_greedy_until (p q : Nat → Bool) (K : Re) (hpq : ∀ c, p c = true → q c = false)
    (w : JsString) (hw : ∀ c ∈ w, p c = true) (c0 : Nat) (hq : q c0 = true) (hp : p c0 = false)
    (pos : Nat) (r : JsString) (caps : List (Nat × JsString)) :
    reMatch (.seq (.star true (.cls p)) (.seq (.cls q) K)) ⟨pos, w ++ c0 :: r, caps⟩ =
      reMatch K ⟨pos + w.length + 1, r, caps⟩ := by
  induction w generalizing pos with
  | nil =>
    simp [reMatch_greedy_seq_cons, reMatch_cls_seq_cons, hq, hp]
  | cons d ds ih =>
    have hd : p d = true := hw d (List.mem_cons_self _ _)
    have hds : ∀ c ∈ ds, p c = true := fun c hc => hw c (List.mem_cons_of_mem _ hc)
    rw [List.cons_append, reMatch_greedy_seq_cons, if_pos hd, ih hds, reMatch_cls_seq_cons,
      hpq d hd]
    simp [Nat.add_assoc, Nat.add_comm 1]

theorem reMatch_bol_pos (K : Re) (s : JsString) (pos : Nat) (hpos : 0 < pos)
    (caps : List (Nat × JsString)) : reMatch (.seq .bol K) ⟨pos, s, caps⟩ = [] := by
  simp [reMatch, Nat.pos_iff_ne_zero.mp hpos]

theorem execFrom_bol_pos (K : Re) (s : JsString) (pos : Nat) (hpos : 0 < pos) :
    execFrom (.seq .bol K) pos s = none := by
  induction s generalizing pos with
  | nil => simp [execFrom, reMatch_bol_pos K [] pos hpos]
  | cons c cs ih =>
    simp [execFrom, reMatch_bol_pos K (c :: cs) pos hpos, ih (pos + 1) (Nat.succ_pos _)]

theorem reMatch_bol_zero (K : Re) (s : JsString) (caps : List (Nat × JsString)) :
    reMatch (.seq .bol K) ⟨0, s, caps⟩ = reMatch K ⟨0, s, caps⟩ := by
  simp [reMatch]

theorem execFrom_bol (K : Re) (s : JsString) :
    execFrom (.seq .bol K) 0 s = (reMatch K ⟨0, s, []⟩).head?.map (fun st => ([], st)) := by
  cases s with
  | nil => simp [execFrom, reMatch_bol_zero]
  | cons c cs =>
    simp only [execFrom, reMatch_bol_zero]
    cases h : (reMatch K ⟨0, c :: cs, []⟩).head? with
    | some st => simp
    | none => simp [execFrom_bol_pos K cs 1 (by decide)]

/-! ### `formatTimestamp` -/

theorem intToString_natCast (k : Nat) : intToString (k : Int) = numberToString k := by
  unfold intToString
  have h : ¬ ((k : Int) < 0) := by omega
  rw [if_neg h, Int.natAbs_ofNat]

theorem floor_natCast_div (n d : Nat) : ⌊((n : ℚ) / (d : ℚ))⌋ = ((n / d : Nat) : Int) := by
  have h := Rat.floor_intCast_div_natCast (n : Int) d
  rw [Int.cast_natCast] at h
  rw [h]
  norm_cast

theorem jsRem_natCast (n d : Nat) (hd : 0 < d) :
    jsRem (n : ℚ) (d : ℚ) = ((n % d : Nat) : ℚ) := by
  unfold jsRem
  have hnn : (0 : ℚ) ≤ (n : ℚ) / (d : ℚ) := by positivity
  rw [if_pos hnn, floor_natCast_div]
  have h := Nat.div_add_mod n d
  have h2 : ((d * (n / d) + n % d : Nat) : ℚ) = (n : ℚ) := by rw [h]
  rw [Int.cast_natCast]
  push_cast at h2
  linarith

theorem roundHalfEven_bounds (m : ℚ) :
    ((⌊m⌋ : Int) : ℚ) ≤ (roundHalfEven m : ℚ) ∧ (roundHalfEven m : ℚ) ≤ m + 1 / 2 := by
  have hfl : ((⌊m⌋ : Int) : ℚ) ≤ m := Int.floor_le m
  unfold roundHalfEven
  split
  · exact ⟨le_refl _, by linarith⟩
  · rename_i h1
    have h1b : 1 / 2 ≤ m - ⌊m⌋ := not_lt.mp h1
    split
    · push_cast
      exact ⟨by linarith, by linarith⟩
    · split
      · exact ⟨le_refl _, by linarith⟩
      · push_cast
        exact ⟨by linarith, by linarith⟩

/-- The rounding of a quotient to the nearest double does not reach the next integer: the
quotient is below 2^42, so the doubles around it are at most 2^-11 apart, and it stays
1/3600 below the next integer. -/
theorem floor_roundToDouble (x : ℚ) (q : Nat) (hq : (q : ℚ) ≤ x) (hx : x ≤ q + 3599 / 3600)
    (hlt : x < 2 ^ 42) : ⌊roundToDouble x⌋ = (q : Int) := by
  by_cases hx0 : x = 0
  · subst hx0
    have hq0 : q = 0 := by
      have : (q : ℚ) ≤ 0 := hq
      exact_mod_cast Nat.le_zero.mp (by exact_mod_cast this)
    subst hq0
    simp [roundToDouble]
  · have hqnn : (0 : ℚ) ≤ q := Nat.cast_nonneg q
    have hpos : 0 < x := lt_of_le_of_ne (le_trans hqnn hq) (Ne.symm hx0)
    have hlog : Int.log 2 x < 42 := by
      have h2 : x < ((2 : Nat) : ℚ) ^ (42 : Int) := by
        have e : ((2 : Nat) : ℚ) ^ (42 : Int) = 2 ^ 42 := by norm_num
        rw [e]
        exact hlt
      exact (Int.lt_zpow_iff_log_lt (by norm_num) hpos).mp h2
    have he : max (Int.log 2 x - 52) (-1074) ≤ -11 := by
      apply max_le <;> omega
    obtain ⟨t, ht⟩ := Int.exists_eq_neg_ofNat (le_trans he (by norm_num))
    have ht11 : 11 ≤ t := by omega
    have hP : (2048 : ℚ) ≤ 2 ^ t := by
      have : (2 : ℚ) ^ 11 ≤ 2 ^ t := pow_le_pow_right₀ (by norm_num) ht11
      norm_num at this ⊢
      exact this
    have hPpos : (0 : ℚ) < 2 ^ t := by positivity
    have hz : (2 : ℚ) ^ max (Int.log 2 x - 52) (-1074) = (2 ^ t)⁻¹ := by
      rw [ht, zpow_neg, zpow_natCast]
    unfold roundToDouble
    rw [if_neg hx0, if_neg (not_lt.mpr hpos.le), abs_of_pos hpos, hz, div_inv_eq_mul, one_mul]
    obtain ⟨hb1, hb2⟩ := roundHalfEven_bounds (x * 2 ^ t)
    have hfloor : ((q * 2 ^ t : Nat) : Int) ≤ ⌊x * 2 ^ t⌋ := by
      apply Int.le_floor.mpr
      push_cast
      exact mul_le_mul_of_nonneg_right hq hPpos.le
    have hfloorq : ((q : ℚ) * 2 ^ t) ≤ (⌊x * 2 ^ t⌋ : ℚ) := by
      have := (Int.cast_le (R := ℚ)).mpr hfloor
      push_cast at this
      exact this
    rw [Int.floor_eq_iff]
    constructor
    · rw [le_mul_inv_iff₀ hPpos]
      push_cast
      linarith
    · rw [mul_inv_lt_iff₀ hPpos]
      have h3 : x * 2 ^ t ≤ (q + 3599 / 3600) * 2 ^ t :=
        mul_le_mul_of_nonneg_right hx hPpos.le
      push_cast
      nlinarith

theorem floor_fdiv_natCast (a d : Nat) (hd : 0 < d) (hd2 : d ≤ 3600) (hlt : a < d * 2 ^ 42) :
    ⌊fdiv (a : ℚ) (d : ℚ)⌋ = ((a / d : Nat) : Int) := by
  have hdq : (0 : ℚ) < d := by exact_mod_cast hd
  have hdm := Nat.div_add_mod a d
  have hmod : a % d < d := Nat.mod_lt a hd
  have hcast : ((d * (a / d) + a % d : Nat) : ℚ) = (a : ℚ) := by rw [hdm]
  push_cast at hcast
  have hr : ((a % d : Nat) : ℚ) ≤ d - 1 := by
    have : a % d + 1 ≤ d := hmod
    have h2 : ((a % d + 1 : Nat) : ℚ) ≤ d := by exact_mod_cast this
    push_cast at h2
    linarith
  have hd3 : (d : ℚ) ≤ 3600 := by exact_mod_cast hd2
  unfold fdiv
  apply floor_roundToDouble
  · rw [le_div_iff₀ hdq]
    have : (0 : ℚ) ≤ ((a % d : Nat) : ℚ) := Nat.cast_nonneg _
    linarith
  · rw [div_le_iff₀ hdq]
    have : ((a / d : Nat) : ℚ) * d + (d - 1) ≤ (((a / d : Nat) : ℚ) + 3599 / 3600) * d := by
      nlinarith
    linarith
  · rw [div_lt_iff₀ hdq]
    have : ((a : Nat) : ℚ) < ((d * 2 ^ 42 : Nat) : ℚ) := by exact_mod_cast hlt
    push_cast at this
    linarith

theorem formatTimestamp_of_floors (seconds : ℚ) (h m c : Nat)
    (hh : ⌊fdiv seconds 3600⌋ = (h : Int)) (hm : ⌊fdiv (jsRem seconds 3600) 60⌋ = (m : Int))
    (hc : ⌊jsRem seconds 60⌋ = (c : Int)) :
    formatTimestamp seconds =
      if 0 < h then
        numberToString h ++ js ":" ++ padStart 2 48 (numberToString m) ++ js ":" ++
          padStart 2 48 (numberToString c)
      else numberToString m ++ js ":" ++ padStart 2 48 (numberToString c) := by
  unfold formatTimestamp
  simp only [hh, hm, hc, intToString_natCast]
  by_cases h0 : 0 < h
  · have hz : ((h : Nat) : Int) > 0 := by omega
    rw [if_pos hz, if_pos h0]
  · have hz : ¬ ((h : Nat) : Int) > 0 := by omega
    rw [if_neg hz, if_neg h0]

/-- The timestamp of a whole number of seconds below 2^53, in terms of natural-number
arithmetic. -/
theorem formatTimestamp_natCast (n : Nat) (hn : n < 2 ^ 53) :
    formatTimestamp (n : ℚ) =
      if 0 < n / 3600 then
        numberToString (n / 3600) ++ js ":" ++ padStart 2 48 (numberToString (n % 3600 / 60)) ++
          js ":" ++ padStart 2 48 (numberToString (n % 60))
      else numberToString (n % 3600 / 60) ++ js ":" ++ padStart 2 48 (numberToString (n % 60)) := by
  apply formatTimestamp_of_floors
  · have := floor_fdiv_natCast n 3600 (by decide) (by decide) (by omega)
    simpa using this
  · have hr := jsRem_natCast n 3600 (by decide)
    have := floor_fdiv_natCast (n % 3600) 60 (by decide) (by decide) (by omega)
    simp only [Nat.cast_ofNat] at hr this
    rw [hr]
    exact this
  · have hr := jsRem_natCast n 60 (by decide)
    simp only [Nat.cast_ofNat] at hr
    rw [hr]
    exact Int.floor_natCast _

theorem digitsAux_spec (fuel n : Nat) (acc : JsString) (h : n < fuel) :
    ∃ d ds, digitsAux fuel n acc = d :: ds ++ acc ∧ isDecDigit d = true ∧
      ∀ c ∈ ds, isDecDigit c = true := by
  induction fuel generalizing n acc with
  | zero => omega
  | succ f ih =>
    unfold digitsAux
    by_cases hn : n < 10
    · rw [if_pos hn]
      refine ⟨48 + n, [], rfl, ?_, by simp⟩
      simp only [isDecDigit, Bool.and_eq_true, decide_eq_true_eq]
      omega
    · rw [if_neg hn]
      have hlt : n / 10 < f := by omega
      obtain ⟨d, ds, h1, h2, h3⟩ := ih (n / 10) ((48 + n % 10) :: acc) hlt
      refine ⟨d, ds ++ [48 + n % 10], ?_, h2, ?_⟩
      · rw [h1]
        simp
      · intro c hc
        rcases List.mem_append.mp hc with hc | hc
        · exact h3 c hc
        · simp only [List.mem_singleton] at hc
          subst hc
          simp only [isDecDigit, Bool.and_eq_true, decide_eq_true_eq]
          omega

theorem numberToString_small (n : Nat) (hn : n < 2 ^ 53) :
    numberToString n = decimalDigits n := by
  unfold numberToString
  rw [if_pos hn]

theorem numberToString_digits (n : Nat) (hn : n < 2 ^ 53) :
    ∃ d ds, numberToString n = d :: ds ∧ isDecDigit d = true ∧
      ∀ c ∈ ds, isDecDigit c = true := by
  obtain ⟨d, ds, h1, h2, h3⟩ := digitsAux_spec (n + 1) n [] (Nat.lt_succ_self n)
  exact ⟨d, ds, by simpa [numberToString_small n hn, decimalDigits] using h1, h2, h3⟩

theorem padStart_two (k : Nat) (hk : k < 100) :
    padStart 2 48 (numberToString k) = [48 + k / 10, 48 + k % 10] := by
  rw [numberToString_small k (by omega)]
  by_cases h : k < 10
  · have : decimalDigits k = [48 + k] := by
      unfold decimalDigits digitsAux
      rw [if_pos h]
    rw [this]
    have h1 : k / 10 = 0 := by omega
    have h2 : k % 10 = k := by omega
    simp [padStart, h1, h2]
  · have : decimalDigits k = [48 + k / 10, 48 + k % 10] := by
      unfold decimalDigits digitsAux
      rw [if_neg h]
      obtain ⟨j, rfl⟩ : ∃ j, k = j + 1 := ⟨k - 1, by omega⟩
      unfold digitsAux
      have : (j + 1) / 10 < 10 := by omega
      rw [if_pos this]
    rw [this]
    simp [padStart]

theorem utf16_digitChar (d : Nat) (hd : d < 10) : utf16 (Nat.digitChar d) = [48 + d] := by
  interval_cases d <;> decide

theorem toDigitsCore_utf16 (fuel n : Nat) (ds : List Char) :
    (Nat.toDigitsCore 10 fuel n ds).flatMap utf16 = digitsAux fuel n (ds.flatMap utf16) := by
  induction fuel generalizing n ds with
  | zero => simp [Nat.toDigitsCore, digitsAux]
  | succ f ih =>
    unfold Nat.toDigitsCore digitsAux
    by_cases hn : n < 10
    · have h0 : n / 10 = 0 := by omega
      have hm : n % 10 = n := by omega
      simp only [h0, if_true, if_pos hn, hm, List.flatMap_cons, utf16_digitChar n hn]
      rfl
    · have h0 : ¬ n / 10 = 0 := by omega
      simp only [h0, if_false, if_neg hn]
      rw [ih]
      simp only [List.flatMap_cons, utf16_digitChar (n % 10) (Nat.mod_lt _ (by decide))]
      rfl

/-- The decimal digits are the standard decimal numeral of the number. -/
theorem decimalDigits_eq_toString (n : Nat) : decimalDigits n = js (toString n) := by
  have h := toDigitsCore_utf16 (n + 1) n []
  simp only [List.flatMap_nil] at h
  unfold decimalDigits
  rw [← h]
  rfl

theorem test_bol (K : Re) (s : JsString) :
    test (.seq .bol K) s = (reMatch K ⟨0, s, []⟩).head?.isSome := by
  unfold test
  rw [execFrom_bol]
  cases (reMatch K ⟨0, s, []⟩).head? <;> rfl

theorem reMatch_eps_seq (K : Re) (st : MatchState) : reMatch (.seq .eps K) st = reMatch K st := by
  simp [reMatch]

theorem reMatch_eol_nil (pos : Nat) (caps : List (Nat × JsString)) :
    reMatch .eol ⟨pos, [], caps⟩ = [⟨pos, [], caps⟩] := by
  simp [reMatch]

theorem reMatch_eol_cons (pos : Nat) (c : Nat) (cs : JsString) (caps : List (Nat × JsString)) :
    reMatch .eol ⟨pos, c :: cs, caps⟩ = [] := by
  simp [reMatch]

theorem isDecDigit_ne_colon (c : Nat) (h : isDecDigit c = true) : (c == 58) = false := by
  simp only [isDecDigit, Bool.and_eq_true, decide_eq_true_eq] at h
  simp only [beq_eq_false_iff_ne, ne_eq]
  omega

/-- A run of digits followed by a colon: `\d+:` takes the whole run. -/
theorem reMatch_digits_colon (K : Re) (d : Nat) (ds : JsString) (hd : isDecDigit d = true)
    (hds : ∀ c ∈ ds, isDecDigit c = true) (pos : Nat) (r : JsString)
    (caps : List (Nat × JsString)) :
    reMatch (.seq (Re.plus true Re.digit) (.seq (Re.chr 58) K)) ⟨pos, d :: ds ++ 58 :: r, caps⟩ =
      reMatch K ⟨pos + 1 + ds.length + 1, r, caps⟩ := by
  unfold Re.plus Re.digit Re.chr
  rw [reMatch_seq_assoc, List.cons_append, reMatch_cls_seq_cons, if_pos hd]
  exact reMatch_greedy_until isDecDigit (fun x => x == 58) K isDecDigit_ne_colon ds hds 58 rfl
    rfl (pos + 1) r caps

theorem reMatch_two_digits (K : Re) (a b : Nat) (ha : isDecDigit a = true)
    (hb : isDecDigit b = true) (pos : Nat) (r : JsString) (caps : List (Nat × JsString)) :
    reMatch (.seq (Re.rep 2 Re.digit) K) ⟨pos, a :: b :: r, caps⟩ =
      reMatch K ⟨pos + 1 + 1, r, caps⟩ := by
  simp only [Re.rep, Re.digit, reMatch_seq_assoc, reMatch_cls_seq_cons, reMatch_eps_seq, ha, hb,
    if_true]

theorem isDecDigit_tens (k : Nat) (hk : k < 100) : isDecDigit (48 + k / 10) = true := by
  simp only [isDecDigit, Bool.and_eq_true, decide_eq_true_eq]
  omega

theorem isDecDigit_units (k : Nat) : isDecDigit (48 + k % 10) = true := by
  simp only [isDecDigit, Bool.and_eq_true, decide_eq_true_eq]
  omega

theorem test_minSec_shape (d : Nat) (ds : JsString) (a b : Nat) (hd : isDecDigit d = true)
    (hds : ∀ c ∈ ds, isDecDigit c = true) (ha : isDecDigit a = true) (hb : isDecDigit b = true) :
    test reMinSec (d :: ds ++ 58 :: [a, b]) = true ∧
    test reHourMinSec (d :: ds ++ 58 :: [a, b]) = false := by
  constructor
  · unfold reMinSec
    rw [test_bol, reMatch_digits_colon _ d ds hd hds, reMatch_two_digits _ a b ha hb,
      reMatch_eol_nil]
    rfl
  · unfold reHourMinSec
    rw [test_bol, reMatch_digits_colon _ d ds hd hds, reMatch_two_digits _ a b ha hb]
    simp [Re.chr, reMatch_cls_seq_nil]

theorem test_hourMinSec_shape (d : Nat) (ds : JsString) (a b e f : Nat)
    (hd : isDecDigit d = true) (hds : ∀ c ∈ ds, isDecDigit c = true) (ha : isDecDigit a = true)
    (hb : isDecDigit b = true) (he : isDecDigit e = true) (hf : isDecDigit f = true) :
    test reMinSec (d :: ds ++ 58 :: a :: b :: 58 :: [e, f]) = false ∧
    test reHourMinSec (d :: ds ++ 58 :: a :: b :: 58 :: [e, f]) = true := by
  constructor
  · unfold reMinSec
    rw [test_bol, reMatch_digits_colon _ d ds hd hds, reMatch_two_digits _ a b ha hb,
      reMatch_eol_cons]
    rfl
  · unfold reHourMinSec
    rw [test_bol, reMatch_digits_colon _ d ds hd hds, reMatch_two_digits _ a b ha hb]
    unfold Re.chr
    simp only [reMatch_cls_seq_cons, beq_self_eq_true, if_true]
    rw [reMatch_two_digits _ e f he hf, reMatch_eol_nil]
    rfl

/-- The timestamp of a whole number of seconds below 2^53, hours, minutes and seconds
written out digit by digit. -/
theorem formatTimestamp_closed (seconds : Nat) (hsafe : seconds < 2 ^ 53) :
    formatTimestamp (seconds : ℚ) =
      (if 0 < seconds / 3600 then
        js (toString (seconds / 3600)) ++
          [58, 48 + seconds % 3600 / 60 / 10, 48 + seconds % 3600 / 60 % 10,
           58, 48 + seconds % 60 / 10, 48 + seconds % 60 % 10]
      else js (toString (seconds % 3600 / 60)) ++
          [58, 48 + seconds % 60 / 10, 48 + seconds % 60 % 10]) := by
  have hcolon : js ":" = [58] := by decide
  rw [formatTimestamp_natCast seconds hsafe, padStart_two _ (by omega : seconds % 60 < 100),
    padStart_two _ (by omega : seconds % 3600 / 60 < 100), hcolon,
    numberToString_small _ (by omega : seconds / 3600 < 2 ^ 53),
    numberToString_small _ (by omega : seconds % 3600 / 60 < 2 ^ 53),
    decimalDigits_eq_toString, decimalDigits_eq_toString]
  split <;> simp

theorem formatTimestamp_patterns (seconds : Nat) (hsafe : seconds < 2 ^ 53) :
    (test reMinSec (formatTimestamp (seconds : ℚ)) = true ↔ seconds < 3600) ∧
    (test reHourMinSec (formatTimestamp (seconds : ℚ)) = true ↔ 3600 ≤ seconds) := by
  have hcolon : js ":" = [58] := by decide
  have hs : padStart 2 48 (numberToString (seconds % 60)) =
      [48 + seconds % 60 / 10, 48 + seconds % 60 % 10] :=
    padStart_two _ (by omega)
  have hm : padStart 2 48 (numberToString (seconds % 3600 / 60)) =
      [48 + seconds % 3600 / 60 / 10, 48 + seconds % 3600 / 60 % 10] :=
    padStart_two _ (by omega)
  have hs1 := isDecDigit_tens (seconds % 60) (by omega)
  have hs2 := isDecDigit_units (seconds % 60)
  have hm1 := isDecDigit_tens (seconds % 3600 / 60) (by omega)
  have hm2 := isDecDigit_units (seconds % 3600 / 60)
  rw [formatTimestamp_natCast seconds hsafe]
  by_cases h : 0 < seconds / 3600
  · have hge : 3600 ≤ seconds := by omega
    obtain ⟨d, ds, hnum, hd, hds⟩ := numberToString_digits (seconds / 3600) (by omega)
    rw [if_pos h, hnum, hm, hs, hcolon]
    have hsh := test_hourMinSec_shape d ds _ _ _ _ hd hds hm1 hm2 hs1 hs2
    simp only [List.append_assoc, List.cons_append, List.nil_append, List.singleton_append]
      at hsh ⊢
    rw [hsh.1, hsh.2]
    constructor
    · constructor
      · intro hf
        cases hf
      · intro hlt
        omega
    · exact ⟨fun _ => hge, fun _ => rfl⟩
  · have hlt : seconds < 3600 := by omega
    obtain ⟨d, ds, hnum, hd, hds⟩ := numberToString_digits (seconds % 3600 / 60) (by omega)
    rw [if_neg h, hnum, hs, hcolon]
    have hsh := test_minSec_shape d ds _ _ hd hds hs1 hs2
    simp only [List.append_assoc, List.cons_append, List.nil_append, List.singleton_append]
      at hsh ⊢
    rw [hsh.1, hsh.2]
    constructor
    · exact ⟨fun _ => hlt, fun _ => rfl⟩
    · constructor
      · intro hf
        cases hf
      · intro hge
        omega

theorem formatTimestamp_samples :
    formatTimestamp 0 = js "0:00" ∧ formatTimestamp 59 = js "0:59" ∧
    formatTimestamp 3661 = js "1:01:01" := by
  refine ⟨?_, ?_, ?_⟩
  · have h := formatTimestamp_closed 0 (by decide)
    rw [Nat.cast_zero] at h
    rw [h]
    decide
  · have h := formatTimestamp_closed 59 (by decide)
    rw [Nat.cast_ofNat] at h
    rw [h]
    decide
  · have h := formatTimestamp_closed 3661 (by decide)
    rw [Nat.cast_ofNat] at h
    rw [h]
    decide

/-- C7 (as amended): for every whole number of seconds below 2^53, with hours =
seconds / 3600, minutes = (seconds mod 3600) / 60 and secs = seconds mod 60,
`formatTimestamp` is the decimal numeral of hours, a colon, the two digits of minutes, a
colon and the two digits of secs when hours > 0, and the decimal numeral of minutes, a
colon and the two digits of secs otherwise; the result matches `^\d+:\d{2}$` exactly when
seconds < 3600 and `^\d+:\d{2}:\d{2}$` exactly when seconds ≥ 3600; and the timestamps of
0, 59 and 3661 are `0:00`, `0:59` and `1:01:01`. -/
theorem formatTimestamp_spec (seconds : Nat) (hsafe : seconds < 2 ^ 53) :
    formatTimestamp (seconds : ℚ) =
      (if 0 < seconds / 3600 then
        js (toString (seconds / 3600)) ++
          [58, 48 + seconds % 3600 / 60 / 10, 48 + seconds % 3600 / 60 % 10,
           58, 48 + seconds % 60 / 10, 48 + seconds % 60 % 10]
      else js (toString (seconds % 3600 / 60)) ++
          [58, 48 + seconds % 60 / 10, 48 + seconds % 60 % 10]) ∧
    (test reMinSec (formatTimestamp (seconds : ℚ)) = true ↔ seconds < 3600) ∧
    (test reHourMinSec (formatTimestamp (seconds : ℚ)) = true ↔ 3600 ≤ seconds) ∧
    formatTimestamp 0 = js "0:00" ∧
    formatTimestamp 59 = js "0:59" ∧
    formatTimestamp 3661 = js "1:01:01" :=
  ⟨formatTimestamp_closed seconds hsafe, (formatTimestamp_patterns seconds hsafe).1,
    (formatTimestamp_patterns seconds hsafe).2, formatTimestamp_samples⟩

theorem formatTimestamp_spec_witness :
    86399 < 2 ^ 53 ∧
    formatTimestamp ((86399 : Nat) : ℚ) =
      (if 0 < 86399 / 3600 then
        js (toString (86399 / 3600)) ++
          [58, 48 + 86399 % 3600 / 60 / 10, 48 + 86399 % 3600 / 60 % 10,
           58, 48 + 86399 % 60 / 10, 48 + 86399 % 60 % 10]
      else js (toString (86399 % 3600 / 60)) ++
          [58, 48 + 86399 % 60 / 10, 48 + 86399 % 60 % 10]) ∧
    (test reMinSec (formatTimestamp ((86399 : Nat) : ℚ)) = true ↔ 86399 < 3600) ∧
    (test reHourMinSec (formatTimestamp ((86399 : Nat) : ℚ)) = true ↔ 3600 ≤ 86399) ∧
    formatTimestamp 0 = js "0:00" ∧
    formatTimestamp 59 = js "0:59" ∧
    formatTimestamp 3661 = js "1:01:01" :=
  ⟨by decide, formatTimestamp_spec 86399 (by decide)⟩

theorem roundToDouble_two_pow_70 : roundToDouble (2 ^ 70) = 2 ^ 70 := by
  have hlog : Int.log 2 ((2 : ℚ) ^ 70) = 70 := by
    have h := Int.log_zpow (R := ℚ) (b := 2) (by norm_num) 70
    have e : ((2 : Nat) : ℚ) ^ (70 : Int) = (2 : ℚ) ^ 70 := by norm_num
    rw [e] at h
    exact h
  have hpos : (0 : ℚ) < 2 ^ 70 := by positivity
  have hmax : max ((70 : Int) - 52) (-1074) = 18 := by decide
  have hquot : (2 : ℚ) ^ 70 / 2 ^ (18 : Int) = ((4503599627370496 : Int) : ℚ) := by norm_num
  have hround : roundHalfEven ((4503599627370496 : Int) : ℚ) = 4503599627370496 := by
    unfold roundHalfEven
    rw [Int.floor_intCast, sub_self, if_pos (by norm_num)]
  unfold roundToDouble
  rw [if_neg (ne_of_gt hpos), if_neg (not_lt.mpr hpos.le), abs_of_pos hpos, hlog, hmax, hquot,
    hround]
  norm_num

set_option maxRecDepth 100000 in
/-- C7 (counterexample): 3600 × 2^70 is a whole number of seconds that a JavaScript number
holds exactly; its hours are 2^70, which `Number.prototype.toString` prints in exponent
notation, so the timestamp is `1.1805916207174113e+21:00:00`: it does not match
`^\d+:\d{2}:\d{2}$` although the seconds are not below 3600, and it is not the decimal
numeral of the hours followed by `:00:00`. -/
theorem formatTimestamp_exponent_hours :
    3600 ≤ 3600 * 2 ^ 70 ∧
    toDouble (3600 * 2 ^ 70) = 3600 * 2 ^ 70 ∧
    formatTimestamp ((3600 * 2 ^ 70 : Nat) : ℚ) = js "1.1805916207174113e+21:00:00" ∧
    test reHourMinSec (formatTimestamp ((3600 * 2 ^ 70 : Nat) : ℚ)) = false ∧
    formatTimestamp ((3600 * 2 ^ 70 : Nat) : ℚ) ≠
      js (toString (3600 * 2 ^ 70 / 3600)) ++ js ":00:00" := by
  have hfmt : formatTimestamp ((3600 * 2 ^ 70 : Nat) : ℚ) =
      js "1.1805916207174113e+21:00:00" := by
    have hh : ⌊fdiv ((3600 * 2 ^ 70 : Nat) : ℚ) 3600⌋ = ((2 ^ 70 : Nat) : Int) := by
      have e : ((3600 * 2 ^ 70 : Nat) : ℚ) / 3600 = 2 ^ 70 := by norm_num
      unfold fdiv
      rw [e, roundToDouble_two_pow_70]
      have e2 : (2 : ℚ) ^ 70 = ((2 ^ 70 : Nat) : ℚ) := by norm_num
      rw [e2]
      exact Int.floor_natCast _
    have hm : ⌊fdiv (jsRem ((3600 * 2 ^ 70 : Nat) : ℚ) 3600) 60⌋ = ((0 : Nat) : Int) := by
      have hr := jsRem_natCast (3600 * 2 ^ 70) 3600 (by decide)
      simp only [Nat.cast_ofNat] at hr
      rw [hr]
      have e : (3600 * 2 ^ 70) % 3600 = 0 := by decide
      rw [e]
      simp [fdiv, roundToDouble]
    have hc : ⌊jsRem ((3600 * 2 ^ 70 : Nat) : ℚ) 60⌋ = ((0 : Nat) : Int) := by
      have hr := jsRem_natCast (3600 * 2 ^ 70) 60 (by decide)
      simp only [Nat.cast_ofNat] at hr
      rw [hr]
      have e : (3600 * 2 ^ 70) % 60 = 0 := by decide
      rw [e]
      simp
    rw [formatTimestamp_of_floors _ _ _ _ hh hm hc]
    decide
  refine ⟨by decide, by decide, hfmt, ?_, ?_⟩
  · rw [hfmt]
    decide
  · rw [hfmt]
    decide

/-! ### The line formatter -/

theorem isPrefixOf_append_self (w r : JsString) : w.isPrefixOf (w ++ r) = true := by
  induction w with
  | nil => simp
  | cons c cs ih => simp [List.isPrefixOf_cons₂, ih]

theorem endsWith_cons (y : Nat) (ys w : JsString) (h : endsWith ys w = true) :
    endsWith (y :: ys) w = true := by
  unfold endsWith at h ⊢
  rw [ List.isPrefixOf_iff_prefix] at h ⊢
  rw [List.reverse_cons]
  exact h.trans (List.prefix_append _ _)

theorem endsWith_append_self (r w : JsString) : endsWith (r ++ w) w = true := by
  unfold endsWith
  rw [List.reverse_append]
  exact isPrefixOf_append_self _ _

theorem reMatch_group_seq (i : Nat) (r K : Re) (st : MatchState) :
    reMatch (.seq (.group i r) K) st =
      ((reMatch r st).map (fun st2 =>
        ({ st2 with caps := (i, st.rest.take (st2.pos - st.pos)) :: st2.caps } : MatchState))).flatMap
        (reMatch K) := by
  simp [reMatch]

/-- The tail `\*\*$` of the bold pattern at a given state. -/
theorem reMatch_boldTail (pos : Nat) (s : JsString) (caps : List (Nat × JsString)) :
    reMatch (.seq (Re.lit [42, 42]) .eol) ⟨pos, s, caps⟩ =
      if s = [42, 42] then [⟨pos + 2, [], caps⟩] else [] := by
  rw [reMatch_lit_seq]
  match s with
  | [] => simp
  | [a] => simp [List.isPrefixOf_cons₂]
  | [a, b] =>
    by_cases ha : a = 42 <;> by_cases hb : b = 42 <;>
      simp [List.isPrefixOf_cons₂, ha, hb, reMatch_eol_nil, Ne.symm]
  | a :: b :: c :: r =>
    by_cases ha : a = 42 <;> by_cases hb : b = 42 <;>
      simp [List.isPrefixOf_cons₂, ha, hb, reMatch_eol_cons, Ne.symm]

/-- The bold pattern does not match after the marker when the line has no trailing `**`. -/
theorem reMatch_boldBody_none (g : MatchState → MatchState) (hg : ∀ st, (g st).rest = st.rest)
    (y : JsString) (hy : endsWith y [42, 42] = false) (pos : Nat)
    (caps : List (Nat × JsString)) :
    ((reMatch (.star true Re.dot) ⟨pos, y, caps⟩).map g).flatMap
      (reMatch (.seq (Re.lit [42, 42]) .eol)) = [] := by
  have hone : ∀ st : MatchState, endsWith st.rest [42, 42] = false →
      reMatch (.seq (Re.lit [42, 42]) .eol) (g st) = [] := by
    intro st hst
    rcases hgs : g st with ⟨p2, r2, c2⟩
    have hr : r2 = st.rest := by
      have := hg st
      rw [hgs] at this
      exact this
    rw [reMatch_boldTail]
    split
    · rename_i heq
      rw [hr] at heq
      rw [heq] at hst
      exact absurd hst (by decide)
    · rfl
  induction y generalizing pos with
  | nil =>
    rw [reMatch_star_nil]
    simp [hone ⟨pos, [], caps⟩ hy]
  | cons c cs ih =>
    unfold Re.dot at ih ⊢
    rw [reMatch_star_greedy_cons, List.map_append, List.flatMap_append]
    have hcs : endsWith cs [42, 42] = false := by
      cases h : endsWith cs [42, 42] with
      | false => rfl
      | true => rw [endsWith_cons c cs _ h] at hy; cases hy
    have h2 : ([(⟨pos, c :: cs, caps⟩ : MatchState)].map g).flatMap
        (reMatch (.seq (Re.lit [42, 42]) .eol)) = [] := by
      simp [hone ⟨pos, c :: cs, caps⟩ hy]
    rw [h2, List.append_nil]
    split
    · exact ih hcs (pos + 1)
    · simp

/-- The bold pattern after the marker, on a text without line terminators followed by `**`:
the only match captures the text. -/
theorem reMatch_boldBody (pos0 : Nat) (full pre x : JsString)
    (hx : ∀ c ∈ x, isLineTerminator c = false) (hfull : full = pre ++ (x ++ [42, 42])) :
    ((reMatch (.star true Re.dot) ⟨pos0 + pre.length, x ++ [42, 42], []⟩).map (fun st2 =>
        ({ st2 with caps := (1, full.take (st2.pos - pos0)) :: st2.caps } :
          MatchState))).flatMap (reMatch (.seq (Re.lit [42, 42]) .eol)) =
      [⟨pos0 + pre.length + x.length + 2, [], [(1, pre ++ x)]⟩] := by
  induction x generalizing pre with
  | nil =>
    unfold Re.dot
    simp only [List.nil_append, reMatch_star_greedy_cons, reMatch_star_nil]
    have h42 : (!isLineTerminator 42) = true := by decide
    rw [if_pos h42, if_pos h42]
    subst hfull
    simp [reMatch_boldTail]
  | cons c cs ih =>
    have hc : (!isLineTerminator c) = true := by
      simp [hx c (List.mem_cons_self _ _)]
    have hcs : ∀ d ∈ cs, isLineTerminator d = false :=
      fun d hd => hx d (List.mem_cons_of_mem _ hd)
    have ih2 := ih (pre ++ [c]) hcs (by simp [hfull])
    simp only [List.length_append, List.length_singleton, List.append_assoc,
      List.singleton_append] at ih2
    unfold Re.dot at ih2 ⊢
    rw [List.cons_append, reMatch_star_greedy_cons, if_pos hc, List.map_append,
      List.flatMap_append]
    have e1 : pos0 + pre.length + 1 = pos0 + (pre.length + 1) := by omega
    rw [e1, ih2]
    have hne : ¬ (c :: (cs ++ [42, 42]) = [42, 42]) := by
      intro h
      have := congrArg List.length h
      simp at this
    simp [reMatch_boldTail, hne]
    omega

theorem endsWith_drop (k : Nat) (s w : JsString) (h : endsWith (s.drop k) w = true) :
    endsWith s w = true := by
  induction s generalizing k with
  | nil => simpa using h
  | cons c cs ih =>
    cases k with
    | zero => simpa using h
    | succ k =>
      rw [List.drop_succ_cons] at h
      exact endsWith_cons c cs w (ih k h)

theorem replaceFirst_reBold_none (f : JsString → List (Nat × JsString) → JsString)
    (line : JsString) (h : endsWith line (js "**") = false) :
    replaceFirst reBold f line = line := by
  have hj : js "**" = [42, 42] := by decide
  rw [hj] at h
  have hnone : reMatch (.seq (Re.lit (js "* **")) (.seq (.group 1 (.star true Re.dot))
      (.seq (Re.lit [42, 42]) .eol))) ⟨0, line, []⟩ = [] := by
    rw [reMatch_lit_seq]
    split
    · rw [reMatch_group_seq]
      have hd : endsWith (line.drop (js "* **").length) [42, 42] = false := by
        cases hh : endsWith (line.drop (js "* **").length) [42, 42] with
        | false => rfl
        | true => rw [endsWith_drop _ _ _ hh] at h; cases h
      apply reMatch_boldBody_none
      · intro st
        rfl
      · exact hd
    · rfl
  unfold replaceFirst reBold
  rw [execFrom_bol, hj, hnone]
  rfl

theorem replaceFirst_reBold_some (x : JsString) (hx : ∀ c ∈ x, isLineTerminator c = false) :
    replaceFirst reBold (fun _ caps => (capture caps 1).getD [])
      (js "* **" ++ x ++ js "**") = x := by
  have hj : js "**" = [42, 42] := by decide
  have hl : (js "* **").length = 4 := by decide
  unfold replaceFirst reBold
  rw [execFrom_bol, reMatch_lit_seq, hj, List.append_assoc, isPrefixOf_append_self, if_pos rfl,
    List.drop_left, reMatch_group_seq]
  have hb := reMatch_boldBody (0 + (js "* **").length) (x ++ [42, 42]) [] x hx rfl
  simp only [List.length_nil, Nat.add_zero, List.nil_append] at hb
  simp only []
  rw [hb]
  simp [capture]

/-- The markup of a line whose trimmed text is `* **`, a text without line terminators,
and `**`. -/
theorem formatLine_bold_markup (line0 x : JsString) (htrim : trim line0 = js "* **" ++ x ++ js "**")
    (hx : ∀ c ∈ x, isLineTerminator c = false) :
    formatLine line0 = liBoldOpen ++ x ++ liClose := by
  have hj : js "**" = [42, 42] := by decide
  have hl : (js "* **").length = 4 := by decide
  have h1 : ¬ (js "* **" ++ x ++ js "**").length = 0 := by
    simp [hl, hj]
  have h2 : endsWith (js "* **" ++ x ++ js "**") (js ":") = false := by
    have hc : js ":" = [58] := by decide
    simp [endsWith, hj, hc, List.isPrefixOf_cons₂]
  have h3 : startsWith (js "* **" ++ x ++ js "**") (js "* **") = true := by
    unfold startsWith
    rw [List.append_assoc]
    exact isPrefixOf_append_self _ _
  unfold formatLine
  simp only [htrim]
  rw [if_neg h1, h2, h3, replaceFirst_reBold_some x hx]
  simp

theorem length_ne_zero_of_startsWith (line w : JsString) (hw : w ≠ [])
    (h : startsWith line w = true) : ¬ line.length = 0 := by
  intro hl
  have : line = [] := List.length_eq_zero.mp hl
  subst this
  cases w with
  | nil => exact hw rfl
  | cons c cs => simp [startsWith] at h

theorem startsWith_of_append (line a b : JsString) (h : startsWith line (a ++ b) = true) :
    startsWith line a = true := by
  unfold startsWith at h ⊢
  rw [ List.isPrefixOf_iff_prefix] at h ⊢
  exact (List.prefix_append a b).trans h

theorem replaceFirst_reBullet_none (f : JsString → List (Nat × JsString) → JsString)
    (line : JsString) (h : startsWith line (js "* ") = false) :
    replaceFirst reBullet f line = line := by
  unfold startsWith at h
  unfold replaceFirst reBullet
  rw [execFrom_bol, reMatch_lit, h]
  rfl

theorem formatLine_unterminated_bold (line0 : JsString)
    (hcolon : endsWith (trim line0) (js ":") = false)
    (hstart : startsWith (trim line0) (js "* **") = true)
    (hend : endsWith (trim line0) (js "**") = false) :
    formatLine line0 = liBoldOpen ++ trim line0 ++ liClose := by
  have hlen := length_ne_zero_of_startsWith _ _ (by decide) hstart
  unfold formatLine
  simp only []
  rw [if_neg hlen, hcolon, hstart, replaceFirst_reBold_none _ _ hend]
  simp

theorem formatLine_stray_star (line0 : JsString)
    (hcolon : endsWith (trim line0) (js ":") = false)
    (hstart : startsWith (trim line0) (js "*") = true)
    (hspace : startsWith (trim line0) (js "* ") = false) :
    formatLine line0 = liOpen ++ trim line0 ++ liClose := by
  have hlen := length_ne_zero_of_startsWith _ _ (by decide) hstart
  have hbold : startsWith (trim line0) (js "* **") = false := by
    cases h : startsWith (trim line0) (js "* **") with
    | false => rfl
    | true =>
      have e : js "* **" = js "* " ++ js "**" := by decide
      rw [e] at h
      rw [startsWith_of_append _ _ _ h] at hspace
      cases hspace
  unfold formatLine
  simp only []
  rw [if_neg hlen, hcolon, hbold, hstart, replaceFirst_reBullet_none _ _ hspace]
  simp

/-- C2 (as amended): a line whose trimmed text does not end with `:` and looks like partial
markup is emitted as a list item that keeps the text as it is: when it starts with `* **`
and has no trailing `**` it becomes a bold `<li>` wrapping the whole trimmed line, and
when it starts with `*` not followed by a space it becomes a plain `<li>` wrapping the
whole trimmed line. -/
theorem formatLine_partial_markup (line0 : JsString)
    (hcolon : endsWith (trim line0) (js ":") = false) :
    (startsWith (trim line0) (js "* **") = true → endsWith (trim line0) (js "**") = false →
      formatLine line0 = liBoldOpen ++ trim line0 ++ liClose) ∧
    (startsWith (trim line0) (js "*") = true → startsWith (trim line0) (js "* ") = false →
      formatLine line0 = liOpen ++ trim line0 ++ liClose) :=
  ⟨formatLine_unterminated_bold line0 hcolon, formatLine_stray_star line0 hcolon⟩

theorem formatLine_partial_markup_witness :
    endsWith (trim (js "  * **unterminated")) (js ":") = false ∧
    formatLine (js "  * **unterminated") =
      liBoldOpen ++ trim (js "  * **unterminated") ++ liClose ∧
    formatLine (js "**stray**") = liOpen ++ trim (js "**stray**") ++ liClose :=
  ⟨by decide,
    (formatLine_partial_markup (js "  * **unterminated") (by decide)).1 (by decide) (by decide),
    (formatLine_partial_markup (js "**stray**") (by decide)).2 (by decide) (by decide)⟩

set_option maxRecDepth 100000 in
/-- C2 (counterexample): the line `* **abc` starts with `* **`, has no trailing `**` and
does not end with `:`, and the line `*abc` starts with a `*` that no space follows; the
formatter emits a bold list item for the first and a plain list item for the second,
each wrapping the whole line, and not a paragraph. -/
theorem formatLine_partial_markup_not_paragraph :
    trim (js "* **abc") = js "* **abc" ∧
    endsWith (js "* **abc") (js ":") = false ∧
    startsWith (js "* **abc") (js "* **") = true ∧
    endsWith (js "* **abc") (js "**") = false ∧
    formatLine (js "* **abc") = liBoldOpen ++ js "* **abc" ++ liClose ∧
    formatLine (js "* **abc") ≠ pOpen ++ js "* **abc" ++ pClose ∧
    trim (js "*abc") = js "*abc" ∧
    endsWith (js "*abc") (js ":") = false ∧
    startsWith (js "*abc") (js "*") = true ∧
    startsWith (js "*abc") (js "* ") = false ∧
    formatLine (js "*abc") = liOpen ++ js "*abc" ++ liClose ∧
    formatLine (js "*abc") ≠ pOpen ++ js "*abc" ++ pClose := by
  decide

/-- Where the stripping works: for every text X containing no line terminator (line feed,
carriage return, U+2028, U+2029), a line whose trimmed text is `* **`, X, `**` is rendered
as one bold `<li>` element whose content is exactly X. -/
theorem formatLine_emphasized_item (line0 x : JsString)
    (htrim : trim line0 = js "* **" ++ x ++ js "**")
    (hx : ∀ c ∈ x, isLineTerminator c = false) :
    formatLine line0 = liBoldOpen ++ x ++ liClose :=
  formatLine_bold_markup line0 x htrim hx

theorem formatLine_emphasized_item_witness :
    trim (js " * **key point**\r") = js "* **" ++ js "key point" ++ js "**" ∧
    (∀ c ∈ js "key point", isLineTerminator c = false) ∧
    formatLine (js " * **key point**\r") = liBoldOpen ++ js "key point" ++ liClose :=
  ⟨by decide, by decide,
    formatLine_emphasized_item (js " * **key point**\r") (js "key point") (by decide) (by decide)⟩

set_option maxRecDepth 100000 in
/-- C3 (evaluation of the code): the text `a`, carriage return, `b` contains no newline,
so the line `* **`, that text, `**` is one line of the buffer, yet it is rendered as a bold
list item that keeps the whole line, marker and delimiters included, because `.` does not
match a carriage return. -/
theorem formatLine_bold_carriage_return :
    (10 ∉ js "a\rb") ∧
    trim (js "* **a\rb**") = js "* **" ++ js "a\rb" ++ js "**" ∧
    formatLine (js "* **a\rb**") = liBoldOpen ++ js "* **a\rb**" ++ liClose ∧
    formatLine (js "* **a\rb**") ≠ liBoldOpen ++ js "a\rb" ++ liClose := by
  decide

/-! ### The list-item pattern on the markup of one line -/

theorem js_closeTag : js "</li>" = [60, 47, 108, 105, 62] := by decide

theorem js_openTag : js "<li" = [60, 108, 105] := by decide

theorem cleanLine_iff (l : JsString) :
    cleanLine l = true ↔
      (∀ c ∈ l, isLineTerminator c = false) ∧ includes l (js "</li>") = false := by
  simp [cleanLine]

theorem closeTag_straddle (u r : JsString) (hu : u ≠ [])
    (h : (js "</li>").isPrefixOf u = false) :
    (js "</li>").isPrefixOf (u ++ 60 :: r) = false := by
  rw [js_closeTag] at h ⊢
  match u, hu, h with
  | [a], _, _ => simp [List.isPrefixOf_cons₂]
  | [a, b], _, _ => simp [List.isPrefixOf_cons₂]
  | [a, b, c], _, _ => simp [List.isPrefixOf_cons₂]
  | [a, b, c, d], _, _ => simp [List.isPrefixOf_cons₂]
  | a :: b :: c :: d :: e :: t, _, h =>
    simp only [List.isPrefixOf_cons₂, List.cons_append, List.isPrefixOf_nil_left] at h ⊢
    exact h

/-- The lazy `.*?` followed by a literal finds nothing when the literal does not start
before the first line terminator. -/
theorem reMatch_lazy_lit_none (w : JsString) (K : Re) (s : JsString)
    (h : occursBeforeBreak w s = false) (pos : Nat) (caps : List (Nat × JsString)) :
    reMatch (.seq (.star false Re.dot) (.seq (Re.lit w) K)) ⟨pos, s, caps⟩ = [] := by
  induction s generalizing pos with
  | nil =>
    simp only [occursBeforeBreak] at h
    rw [reMatch_star_seq_nil, reMatch_lit_seq, h]
    rfl
  | cons c cs ih =>
    simp only [occursBeforeBreak, Bool.or_eq_false_iff, Bool.and_eq_false_iff] at h
    unfold Re.dot at ih ⊢
    rw [reMatch_lazy_seq_cons, reMatch_lit_seq, h.1]
    rcases h.2 with h2 | h2
    · simp [h2]
    · simp [ih h2]

theorem occursBeforeBreak_newlineLed (w : JsString) (hw : w.isPrefixOf [] = false)
    (hw2 : ∀ t, w.isPrefixOf (10 :: t) = false) (t : JsString) (ht : NewlineLed t) :
    occursBeforeBreak w t = false := by
  rcases ht with rfl | ⟨t2, rfl⟩
  · simpa [occursBeforeBreak] using hw
  · simp [occursBeforeBreak, hw2, isLineTerminator]

theorem closeTag_not_newline (t : JsString) : (js "</li>").isPrefixOf (10 :: t) = false := by
  rw [js_closeTag]
  simp [List.isPrefixOf_cons₂]

theorem occursBeforeBreak_closeTag_tail (t : JsString) (ht : NewlineLed t) :
    occursBeforeBreak (js "</li>") ([47, 108, 105, 62] ++ t) = false := by
  have h0 := occursBeforeBreak_newlineLed (js "</li>") (by decide) closeTag_not_newline t ht
  rw [js_closeTag] at h0 ⊢
  simp [occursBeforeBreak, List.isPrefixOf_cons₂, h0, isLineTerminator]

/-- The lazy `.*?` followed by the closing tag stops at the end of a clean content. -/
theorem reMatch_lazy_closeTag (K : Re) (content : JsString) (hc : cleanLine content = true)
    (t : JsString) (ht : NewlineLed t) (pos : Nat) (caps : List (Nat × JsString)) :
    reMatch (.seq (.star false Re.dot) (.seq (Re.lit (js "</li>")) K))
        ⟨pos, content ++ (js "</li>" ++ t), caps⟩ =
      reMatch K ⟨pos + content.length + 5, t, caps⟩ := by
  induction content generalizing pos with
  | nil =>
    have hl : (js "</li>").length = 5 := by decide
    have e : js "</li>" ++ t = 60 :: ([47, 108, 105, 62] ++ t) := by
      rw [js_closeTag]
      rfl
    have hd : (!isLineTerminator 60) = true := by decide
    rw [List.nil_append]
    conv => lhs; rw [e]
    unfold Re.dot
    rw [reMatch_lazy_seq_cons, if_pos hd]
    have hnone := reMatch_lazy_lit_none (js "</li>") K _ (occursBeforeBreak_closeTag_tail t ht)
      (pos + 1) caps
    unfold Re.dot at hnone
    rw [hnone, List.append_nil, ← e, reMatch_lit_seq, isPrefixOf_append_self, if_pos rfl,
      List.drop_left, hl]
    rfl
  | cons c cs ih =>
    rw [cleanLine_iff] at hc
    have hterm : (!isLineTerminator c) = true := by
      simp [hc.1 c (List.mem_cons_self _ _)]
    have hinc := hc.2
    simp only [includes, Bool.or_eq_false_iff] at hinc
    have hcs : cleanLine cs = true := by
      rw [cleanLine_iff]
      exact ⟨fun d hd => hc.1 d (List.mem_cons_of_mem _ hd), hinc.2⟩
    have hstr : (js "</li>").isPrefixOf ((c :: cs) ++ (js "</li>" ++ t)) = false := by
      have e : js "</li>" ++ t = 60 :: ([47, 108, 105, 62] ++ t) := by
        rw [js_closeTag]
        rfl
      rw [e]
      exact closeTag_straddle (c :: cs) _ (by simp) hinc.1
    have ih2 := ih hcs (pos + 1)
    unfold Re.dot at ih2 ⊢
    rw [List.cons_append, reMatch_lazy_seq_cons, if_pos hterm, reMatch_lit_seq]
    rw [List.cons_append] at hstr
    rw [hstr, ih2]
    simp [Nat.add_assoc, Nat.add_comm 1]

theorem reMatch_newlines_nil (pos : Nat) (caps : List (Nat × JsString)) :
    reMatch (.star true (Re.chr 10)) ⟨pos, [], caps⟩ = [⟨pos, [], caps⟩] :=
  reMatch_star_nil _ _ _ _

theorem reMatch_newlines_one (pos : Nat) (t2 : JsString) (h : t2.head? ≠ some 10)
    (caps : List (Nat × JsString)) :
    reMatch (.star true (Re.chr 10)) ⟨pos, 10 :: t2, caps⟩ =
      [⟨pos + 1, t2, caps⟩, ⟨pos, 10 :: t2, caps⟩] := by
  unfold Re.chr
  rw [reMatch_star_greedy_cons]
  cases t2 with
  | nil => simp [reMatch_star_nil]
  | cons c cs =>
    have hc : ¬ c = 10 := by
      intro hc
      apply h
      simp [hc]
    rw [reMatch_star_greedy_cons]
    simp [hc]

/-- On the markup of a list item followed by the rest of the joined text, the list-item
pattern consumes exactly the item and then the newlines. -/
theorem reMatch_reListItem_item (l : JsString) (hl : ItemLine l) (t : JsString)
    (ht : NewlineLed t) (pos : Nat) (caps : List (Nat × JsString)) :
    reMatch reListItem ⟨pos, l ++ t, caps⟩ =
      reMatch (.star true (Re.chr 10)) ⟨pos + l.length, t, caps⟩ := by
  obtain ⟨attrs, content, rfl, hattrs, hcontent⟩ := hl
  have h3 : (js "<li").length = 3 := by decide
  have h5 : (js "</li>").length = 5 := by decide
  unfold reListItem
  rw [List.append_assoc, reMatch_lit_seq, isPrefixOf_append_self, if_pos rfl, List.drop_left]
  unfold Re.chr
  have e : (attrs ++ 62 :: (content ++ js "</li>")) ++ t =
      attrs ++ 62 :: (content ++ (js "</li>" ++ t)) := by simp
  rw [e, reMatch_greedy_until (fun c => c != 62) (fun x => x == 62) _ (by intro c hc; simpa using hc)
    attrs hattrs 62 rfl rfl]
  have hk := reMatch_lazy_closeTag (.star true (.cls (fun x => x == 10))) content hcontent t ht
    (pos + (js "<li").length + attrs.length + 1) caps
  rw [hk]
  congr 2
  simp [h3, h5]
  omega

/-! ### The list-item pattern inside the markup of a heading or a paragraph -/

theorem NoStartIn_append (w l1 l2 t : JsString) (h1 : NoStartIn w l1 (l2 ++ t))
    (h2 : NoStartIn w l2 t) : NoStartIn w (l1 ++ l2) t := by
  intro a b hab
  rcases List.append_eq_append_iff.mp hab with ⟨a2, _, hl2⟩ | ⟨c2, hl1, hb⟩
  · exact h2 a2 b hl2
  · rw [hb, List.append_assoc]
    exact h1 a c2 hl1

theorem occursBeforeBreak_of_noStartIn (w l t : JsString) (h : NoStartIn w l t)
    (ht : occursBeforeBreak w t = false) (a b : JsString) (hab : l = a ++ b) :
    occursBeforeBreak w (b ++ t) = false := by
  induction b generalizing a with
  | nil => simpa using ht
  | cons c cs ih =>
    have h1 := h a (c :: cs) hab
    have h2 := ih (a ++ [c]) (by simp [hab])
    rw [List.cons_append] at h1 ⊢
    simp [occursBeforeBreak, h1, h2]

theorem closeTag_not_lt (c : Nat) (hc : c ≠ 60) (r : JsString) :
    (js "</li>").isPrefixOf (c :: r) = false := by
  rw [js_closeTag]
  simp [List.isPrefixOf_cons₂, Ne.symm hc]

theorem closeTag_newlineLed (t : JsString) (ht : NewlineLed t) :
    (js "</li>").isPrefixOf t = false := by
  rcases ht with rfl | ⟨t2, rfl⟩
  · decide
  · exact closeTag_not_newline t2

/-- A tag whose only `<` is its first code unit and that does not begin like `</li>`. -/
theorem NoStartIn_tag (x0 : Nat) (tl t : JsString) (htl : ∀ c ∈ tl, c ≠ 60)
    (hwhole : (js "</li>").isPrefixOf (x0 :: tl ++ t) = false)
    (hend : (js "</li>").isPrefixOf t = false) : NoStartIn (js "</li>") (x0 :: tl) t := by
  intro a b hab
  cases a with
  | nil =>
    rw [List.nil_append] at hab
    rw [← hab]
    exact hwhole
  | cons y ys =>
    rw [List.cons_append] at hab
    have htl2 : tl = ys ++ b := (List.cons.inj hab).2
    cases b with
    | nil => simpa using hend
    | cons c cs =>
      have hc : c ∈ tl := by
        rw [htl2]
        simp
      exact closeTag_not_lt c (htl c hc) _

theorem isPrefixOf_of_includes_false (w a b : JsString) (hb : b ≠ [])
    (h : includes (a ++ b) w = false) : w.isPrefixOf b = false := by
  induction a with
  | nil =>
    cases b with
    | nil => exact absurd rfl hb
    | cons c cs =>
      simp only [List.nil_append, includes, Bool.or_eq_false_iff] at h
      exact h.1
  | cons x xs ih =>
    simp only [List.cons_append, includes, Bool.or_eq_false_iff] at h
    exact ih h.2

/-- A line without `</li>` followed by a closing tag. -/
theorem NoStartIn_line (line tl t : JsString) (hline : includes line (js "</li>") = false)
    (hend : (js "</li>").isPrefixOf (60 :: tl ++ t) = false) :
    NoStartIn (js "</li>") line (60 :: tl ++ t) := by
  intro a b hab
  cases b with
  | nil => simpa using hend
  | cons c cs =>
    have h1 : (js "</li>").isPrefixOf (c :: cs) = false :=
      isPrefixOf_of_includes_false _ a (c :: cs) (by simp) (hab ▸ hline)
    exact closeTag_straddle (c :: cs) (tl ++ t) (by simp) h1

theorem js_h2Close : h2Close = 60 :: [47, 104, 50, 62] := by decide

theorem js_pClose : pClose = 60 :: [47, 112, 62] := by decide

theorem h2Open_shape : ∃ tl, h2Open = 60 :: 104 :: tl ∧ ∀ c ∈ 104 :: tl, c ≠ 60 := by
  refine ⟨h2Open.drop 2, by decide, by decide⟩

theorem pOpen_shape : ∃ tl, pOpen = 60 :: 112 :: tl ∧ ∀ c ∈ 112 :: tl, c ≠ 60 := by
  refine ⟨pOpen.drop 2, by decide, by decide⟩

/-- In the markup of a heading or a paragraph, followed by the rest
of the joined text, the closing tag `</li>` starts nowhere. -/
theorem NoStartIn_block (l : JsString) (hl : BlockLine l) (t : JsString) (ht : NewlineLed t) :
    NoStartIn (js "</li>") l t := by
  have hend := closeTag_newlineLed t ht
  obtain ⟨line, hline, rfl | rfl⟩ := hl
  · obtain ⟨tl, hopen, htl⟩ := h2Open_shape
    have hc : NoStartIn (js "</li>") h2Close t := by
      rw [js_h2Close]
      apply NoStartIn_tag _ _ _ (by decide) _ hend
      rw [js_closeTag]
      simp [List.isPrefixOf_cons₂]
    have hcw : (js "</li>").isPrefixOf (60 :: [47, 104, 50, 62] ++ t) = false := by
      rw [js_closeTag]
      simp [List.isPrefixOf_cons₂]
    have hln : NoStartIn (js "</li>") line (h2Close ++ t) := by
      rw [js_h2Close]
      exact NoStartIn_line line _ t hline hcw
    have hlc : NoStartIn (js "</li>") (line ++ h2Close) t := NoStartIn_append _ _ _ _ hln hc
    apply NoStartIn_append _ _ _ _ _ hlc
    rw [hopen]
    apply NoStartIn_tag _ _ _ htl
    · rw [js_closeTag]
      simp [List.isPrefixOf_cons₂]
    · exact hlc [] (line ++ h2Close) rfl
  · obtain ⟨tl, hopen, htl⟩ := pOpen_shape
    have hc : NoStartIn (js "</li>") pClose t := by
      rw [js_pClose]
      apply NoStartIn_tag _ _ _ (by decide) _ hend
      rw [js_closeTag]
      simp [List.isPrefixOf_cons₂]
    have hcw : (js "</li>").isPrefixOf (60 :: [47, 112, 62] ++ t) = false := by
      rw [js_closeTag]
      simp [List.isPrefixOf_cons₂]
    have hln : NoStartIn (js "</li>") line (pClose ++ t) := by
      rw [js_pClose]
      exact NoStartIn_line line _ t hline hcw
    have hlc : NoStartIn (js "</li>") (line ++ pClose) t := NoStartIn_append _ _ _ _ hln hc
    apply NoStartIn_append _ _ _ _ _ hlc
    rw [hopen]
    apply NoStartIn_tag _ _ _ htl
    · rw [js_closeTag]
      simp [List.isPrefixOf_cons₂]
    · exact hlc [] (line ++ pClose) rfl

theorem endsGt_singleton (c : Nat) (h : ∃ s2, [c] = s2 ++ [62]) : c = 62 := by
  obtain ⟨s2, hs⟩ := h
  cases s2 with
  | nil => simpa using hs
  | cons x xs =>
    have := congrArg List.length hs
    simp at this

theorem endsGt_tail (c : Nat) (cs : JsString) (hcs : cs ≠ [])
    (h : ∃ s2, c :: cs = s2 ++ [62]) : ∃ s3, cs = s3 ++ [62] := by
  obtain ⟨s2, hs⟩ := h
  cases s2 with
  | nil =>
    simp only [List.nil_append, List.cons.injEq] at hs
    exact absurd hs.2 hcs
  | cons x xs =>
    simp only [List.cons_append, List.cons.injEq] at hs
    exact ⟨xs, hs.2⟩

theorem endsGt_suffix (l2 a b : JsString) (hb : b ≠ []) (hab : l2 ++ [62] = a ++ b) :
    ∃ s2, b = s2 ++ [62] := by
  rcases List.append_eq_append_iff.mp hab with ⟨a2, _, h2⟩ | ⟨c2, _, h2⟩
  · cases a2 with
    | nil => exact ⟨[], by simpa using h2.symm⟩
    | cons x xs =>
      have := congrArg List.length h2
      simp only [List.length_cons, List.length_append, List.length_nil,
        List.length_singleton] at this
      have hb2 : b = [] := List.length_eq_zero.mp (by omega)
      exact absurd hb2 hb
  · exact ⟨c2, h2⟩

/-- After `<li`, inside the markup of a heading or a paragraph: `[^>]*>` ends inside the
line, and `.*?</li>` then finds no closing tag before the end of the line. -/
theorem reMatch_afterOpen_none (K : Re) (t b1 : JsString)
    (hsuf : ∀ a b, b1 = a ++ b → occursBeforeBreak (js "</li>") (b ++ t) = false)
    (hlast : ∃ s2, b1 = s2 ++ [62]) (pos : Nat) (caps : List (Nat × JsString)) :
    reMatch (.seq (.star true (.cls (fun c => c != 62))) (.seq (.cls (fun x => x == 62))
      (.seq (.star false Re.dot) (.seq (Re.lit (js "</li>")) K)))) ⟨pos, b1 ++ t, caps⟩ = [] := by
  induction b1 generalizing pos with
  | nil =>
    obtain ⟨s2, hs⟩ := hlast
    have := congrArg List.length hs
    simp at this
  | cons c cs ih =>
    rw [List.cons_append, reMatch_greedy_seq_cons, reMatch_cls_seq_cons]
    by_cases hc : c = 62
    · subst hc
      have h1 := hsuf [62] cs rfl
      simp [reMatch_lazy_lit_none _ _ _ h1]
    · have hcs : cs ≠ [] := by
        intro hnil
        subst hnil
        exact hc (endsGt_singleton c hlast)
      have hsuf2 : ∀ a b, cs = a ++ b → occursBeforeBreak (js "</li>") (b ++ t) = false :=
        fun a b hab => hsuf (c :: a) b (by simp [hab])
      simp [hc, ih hsuf2 (endsGt_tail c cs hcs hlast)]

theorem blockLine_endsGt (l : JsString) (hl : BlockLine l) : ∃ l2, l = l2 ++ [62] := by
  obtain ⟨line, _, rfl | rfl⟩ := hl
  · exact ⟨h2Open ++ (line ++ [60, 47, 104, 50]), by simp [js_h2Close]⟩
  · exact ⟨pOpen ++ (line ++ [60, 47, 112]), by simp [js_pClose]⟩

theorem reMatch_reListItem_newlineLed (t : JsString) (ht : NewlineLed t) (pos : Nat)
    (caps : List (Nat × JsString)) : reMatch reListItem ⟨pos, t, caps⟩ = [] := by
  unfold reListItem
  rw [reMatch_lit_seq, js_openTag]
  rcases ht with rfl | ⟨t2, rfl⟩ <;> simp [List.isPrefixOf_cons₂]

/-- The list-item pattern matches at no position inside the markup of a heading or a
paragraph, nor right after it. -/
theorem reMatch_reListItem_block (l : JsString) (hl : BlockLine l) (t : JsString)
    (ht : NewlineLed t) (a b : JsString) (hab : l = a ++ b) (pos : Nat)
    (caps : List (Nat × JsString)) : reMatch reListItem ⟨pos, b ++ t, caps⟩ = [] := by
  have hns := NoStartIn_block l hl t ht
  have hocc := occursBeforeBreak_of_noStartIn _ l t hns
    (occursBeforeBreak_newlineLed _ (by decide) closeTag_not_newline t ht)
  obtain ⟨l2, hl2⟩ := blockLine_endsGt l hl
  by_cases hb : b = []
  · subst hb
    exact reMatch_reListItem_newlineLed t ht pos caps
  · have hbe : ∃ s2, b = s2 ++ [62] := endsGt_suffix l2 a b hb (hl2 ▸ hab)
    unfold reListItem Re.chr
    rw [reMatch_lit_seq, js_openTag]
    match b, hb, hbe, hab with
    | [x], _, hbe, _ =>
      have hx := endsGt_singleton x hbe
      subst hx
      simp [List.isPrefixOf_cons₂]
    | [x, y], _, hbe, _ =>
      have hy := endsGt_singleton y (endsGt_tail x [y] (by simp) hbe)
      subst hy
      simp [List.isPrefixOf_cons₂]
    | [x, y, z], _, hbe, _ =>
      have hz := endsGt_singleton z
        (endsGt_tail y [z] (by simp) (endsGt_tail x [y, z] (by simp) hbe))
      subst hz
      simp [List.isPrefixOf_cons₂]
    | x :: y :: z :: w :: b1, _, hbe, hab =>
      have he : ∃ s2, w :: b1 = s2 ++ [62] :=
        endsGt_tail z (w :: b1) (by simp)
          (endsGt_tail y (z :: w :: b1) (by simp) (endsGt_tail x (y :: z :: w :: b1) (by simp) hbe))
      have hsuf : ∀ a2 b2, w :: b1 = a2 ++ b2 →
          occursBeforeBreak (js "</li>") (b2 ++ t) = false :=
        fun a2 b2 h2 => hocc (a ++ x :: y :: z :: a2) b2 (by simp [hab, h2])
      have hnone := reMatch_afterOpen_none (.star true (.cls (fun x => x == 10))) t (w :: b1)
        hsuf he (pos + 3) caps
      split
      · simpa using hnone
      · rfl

/-! ### The joined markup and the grouping -/

theorem join_cons (l : JsString) (rest : List JsString) :
    join [10] (l :: rest) = l ++ (if rest.isEmpty then [] else 10 :: join [10] rest) := by
  cases rest with
  | nil => simp [join]
  | cons l2 rest2 => simp [join]

theorem newlineLed_tail (rest : List JsString) :
    NewlineLed (if rest.isEmpty then [] else 10 :: join [10] rest) := by
  cases rest with
  | nil => exact Or.inl rfl
  | cons l2 rest2 => exact Or.inr ⟨_, rfl⟩

theorem itemLine_cons (l : JsString) (hl : ItemLine l) : ∃ r, l = 60 :: 108 :: 105 :: r := by
  obtain ⟨attrs, content, rfl, _, _⟩ := hl
  exact ⟨_, by rw [js_openTag]; rfl⟩

theorem blockLine_cons (l : JsString) (hl : BlockLine l) :
    ∃ c r, l = 60 :: c :: r ∧ c ≠ 108 := by
  obtain ⟨line, _, rfl | rfl⟩ := hl
  · obtain ⟨tl, hopen, _⟩ := h2Open_shape
    exact ⟨104, tl ++ (line ++ h2Close), by rw [hopen]; rfl, by decide⟩
  · obtain ⟨tl, hopen, _⟩ := pOpen_shape
    exact ⟨112, tl ++ (line ++ pClose), by rw [hopen]; rfl, by decide⟩

theorem isListItem_item (l : JsString) (hl : ItemLine l) : isListItem l = true := by
  obtain ⟨r, rfl⟩ := itemLine_cons l hl
  simp [isListItem, startsWith, js_openTag, List.isPrefixOf_cons₂]

theorem isListItem_block (l : JsString) (hl : BlockLine l) : isListItem l = false := by
  obtain ⟨c, r, rfl, hc⟩ := blockLine_cons l hl
  simp [isListItem, startsWith, js_openTag, List.isPrefixOf_cons₂, Ne.symm hc]

theorem join_head_ne_newline (ls : List JsString) (hls : ∀ l ∈ ls, ItemLine l ∨ BlockLine l) :
    (join [10] ls).head? ≠ some 10 := by
  cases ls with
  | nil => simp [join]
  | cons l rest =>
    rw [join_cons]
    rcases hls l (List.mem_cons_self _ _) with h | h
    · obtain ⟨r, rfl⟩ := itemLine_cons l h
      simp
    · obtain ⟨c, r, rfl, _⟩ := blockLine_cons l h
      simp

theorem join_runText (ls : List JsString) :
    join [10] ls = runText ls ++ join [10] (ls.dropWhile isListItem) := by
  induction ls with
  | nil => simp [join, runText]
  | cons l rest ih =>
    by_cases hl : isListItem l = true
    · rw [join_cons, runText, if_pos hl, List.dropWhile_cons_of_pos hl]
      cases rest with
      | nil => simp [runText, join]
      | cons l2 rest2 =>
        rw [ih]
        simp
    · simp [runText, hl, List.dropWhile_cons_of_neg hl]

theorem groupRuns_true (ls : List JsString) :
    groupRuns true ls = runText ls ++ (ulClose ++ groupRuns false (ls.dropWhile isListItem)) := by
  induction ls with
  | nil => simp [groupRuns, runText]
  | cons l rest ih =>
    by_cases hl : isListItem l = true
    · simp [groupRuns, runText, hl, ih, List.dropWhile_cons_of_pos hl]
    · simp [groupRuns, runText, hl, List.dropWhile_cons_of_neg hl]

theorem groupRuns_false_item (l : JsString) (rest : List JsString) (hl : isListItem l = true) :
    groupRuns false (l :: rest) =
      ulOpen ++ (runText (l :: rest) ++
        (ulClose ++ groupRuns false ((l :: rest).dropWhile isListItem))) := by
  simp [groupRuns, runText, hl, groupRuns_true, List.dropWhile_cons_of_pos hl]

theorem groupRuns_false_block (l : JsString) (rest : List JsString) (hl : isListItem l = false) :
    groupRuns false (l :: rest) =
      l ++ ((if rest.isEmpty then [] else [10]) ++ groupRuns false rest) := by
  simp [groupRuns, hl]

/-! ### The search of the list-run pattern -/

theorem reMatch_group (i : Nat) (r : Re) (st : MatchState) :
    reMatch (.group i r) st =
      (reMatch r st).map (fun st2 =>
        ({ st2 with caps := (i, st.rest.take (st2.pos - st.pos)) :: st2.caps } : MatchState)) := by
  simp [reMatch]

theorem reMatch_reListRun_none (st : MatchState) (h : reMatch reListItem st = []) :
    reMatch reListRun st = [] := by
  unfold reListRun Re.plus
  rw [reMatch_seq, reMatch_group, h]
  rfl

theorem execFrom_skip (re : Re) (pre s2 : JsString) (pos : Nat)
    (h : ∀ a b, pre = a ++ b → b ≠ [] → reMatch re ⟨pos + a.length, b ++ s2, []⟩ = []) :
    execFrom re pos (pre ++ s2) =
      (execFrom re (pos + pre.length) s2).map (fun r => (pre ++ r.1, r.2)) := by
  induction pre generalizing pos with
  | nil =>
    cases hx : execFrom re (pos + ([] : JsString).length) s2 <;>
      simp at hx <;> simp [hx]
  | cons c cs ih =>
    have h0 := h [] (c :: cs) rfl (by simp)
    simp only [List.length_nil, Nat.add_zero, List.cons_append] at h0
    have ih2 := ih (pos + 1) (fun a b hab hb => by
      have := h (c :: a) b (by simp [hab]) hb
      simpa [Nat.add_assoc, Nat.add_comm 1] using this)
    rw [List.cons_append, execFrom, h0]
    simp only [List.head?_nil]
    rw [ih2]
    have e : pos + 1 + cs.length = pos + (c :: cs).length := by
      simp [Nat.add_assoc, Nat.add_comm 1]
    rw [e]
    cases execFrom re (pos + (c :: cs).length) s2 <;> simp

theorem replaceAllAux_skip (re : Re) (f : JsString → List (Nat × JsString) → JsString)
    (fuel : Nat) (pre s2 : JsString) (pos : Nat)
    (h : execFrom re pos (pre ++ s2) =
      (execFrom re (pos + pre.length) s2).map (fun r => (pre ++ r.1, r.2))) :
    replaceAllAux re f (fuel + 1) pos (pre ++ s2) =
      pre ++ replaceAllAux re f (fuel + 1) (pos + pre.length) s2 := by
  unfold replaceAllAux
  rw [h]
  cases hx : execFrom re (pos + pre.length) s2 with
  | none => simp
  | some r =>
    have hm : matchedText pos (pre ++ s2) (pre ++ r.1, r.2) =
        matchedText (pos + pre.length) s2 r := by
      simp [matchedText, List.drop_append, Nat.add_assoc]
    have hc : (r.2.pos = pos + (pre ++ r.1).length) = (r.2.pos = pos + pre.length + r.1.length) := by
      simp [Nat.add_assoc]
    simp only [Option.map_some', hm, hc]
    split <;> (try split) <;> simp [List.append_assoc]

/-- The group of the list-run pattern at the start of a list item of the joined markup:
its first match ends after the item and the newline that separates it from the next
element. -/
theorem reMatch_group_item (l : JsString) (hl : ItemLine l) (rest : List JsString)
    (hrest : ∀ x ∈ rest, ItemLine x ∨ BlockLine x) (pos : Nat) (caps : List (Nat × JsString)) :
    ∃ c1 tail, reMatch (.group 1 reListItem) ⟨pos, join [10] (l :: rest), caps⟩ =
      ⟨pos + (l ++ (if rest.isEmpty then [] else [10])).length, join [10] rest, c1⟩ :: tail := by
  rw [reMatch_group, join_cons, reMatch_reListItem_item l hl _ (newlineLed_tail rest)]
  cases rest with
  | nil =>
    rw [List.isEmpty_nil, if_pos rfl, if_pos rfl, reMatch_newlines_nil]
    simp only [List.append_nil, List.map_cons, List.map_nil, join]
    exact ⟨_, _, rfl⟩
  | cons l2 rest2 =>
    rw [List.isEmpty_cons, if_neg (by simp), if_neg (by simp),
      reMatch_newlines_one _ _ (join_head_ne_newline _ hrest)]
    simp only [List.length_append, List.length_singleton, List.map_cons, List.map_nil,
      ← Nat.add_assoc]
    exact ⟨_, _, rfl⟩

theorem itemLine_length_pos (l : JsString) (hl : ItemLine l) : 0 < l.length := by
  obtain ⟨r, rfl⟩ := itemLine_cons l hl
  simp

/-- The iteration of the list-run pattern from the start of an element of the joined
markup: its first result ends after the leading run of list items. -/
theorem starLoop_run_head (ls : List JsString) (hls : ∀ l ∈ ls, ItemLine l ∨ BlockLine l)
    (fuel : Nat) (hfuel : (join [10] ls).length ≤ fuel) (pos : Nat)
    (caps : List (Nat × JsString)) :
    ∃ caps2, (starLoop (reMatch (.group 1 reListItem)) true fuel
        ⟨pos, join [10] ls, caps⟩).head? =
      some ⟨pos + (runText ls).length, join [10] (ls.dropWhile isListItem), caps2⟩ := by
  induction ls generalizing fuel pos caps with
  | nil =>
    have h0 : reMatch (.group 1 reListItem) ⟨pos, [], caps⟩ = [] := by
      rw [reMatch_group, reMatch_reListItem_newlineLed [] (Or.inl rfl)]
      rfl
    cases fuel with
    | zero => exact ⟨caps, by simp [starLoop, join, runText]⟩
    | succ f => exact ⟨caps, by simp [starLoop, join, runText, h0]⟩
  | cons l rest ih =>
    have hrest : ∀ x ∈ rest, ItemLine x ∨ BlockLine x :=
      fun x hx => hls x (List.mem_cons_of_mem _ hx)
    rcases hls l (List.mem_cons_self _ _) with hl | hl
    · obtain ⟨c1, tail, hg⟩ := reMatch_group_item l hl rest hrest pos caps
      have hlen := itemLine_length_pos l hl
      have hil := isListItem_item l hl
      have hj : (join [10] (l :: rest)).length =
          (l ++ (if rest.isEmpty then [] else [10])).length + (join [10] rest).length := by
        rw [join_cons]
        cases rest with
        | nil => simp [join]
        | cons l2 rest2 =>
          simp only [List.isEmpty_cons, List.length_append, List.length_cons,
            List.length_singleton, List.length_nil]
          simp only [Bool.false_eq_true, if_false, List.length_cons, List.length_nil]
          omega
      cases fuel with
      | zero =>
        simp only [List.length_append] at hj
        omega
      | succ f =>
        have hf : (join [10] rest).length ≤ f := by
          simp only [List.length_append] at hj
          omega
        obtain ⟨caps2, hih⟩ := ih hrest f hf
          (pos + (l ++ (if rest.isEmpty then [] else [10])).length) c1
        refine ⟨caps2, ?_⟩
        have hadv : pos < pos + (l ++ (if rest.isEmpty then [] else [10])).length := by
          simp only [List.length_append]
          omega
        simp only [starLoop, hg, if_true]
        rw [List.filter_cons_of_pos (by simpa using hadv), List.flatMap_cons, List.append_assoc,
          List.head?_append_of_ne_nil _ (by
            intro hnil
            rw [hnil] at hih
            cases hih), hih]
        simp [runText, hil, List.dropWhile_cons_of_pos hil, Nat.add_assoc]
    · have hil := isListItem_block l hl
      have hneg : ¬ isListItem l = true := by simp [hil]
      have h0 : reMatch (.group 1 reListItem) ⟨pos, join [10] (l :: rest), caps⟩ = [] := by
        rw [reMatch_group, join_cons,
          reMatch_reListItem_block l hl _ (newlineLed_tail rest) [] l rfl]
        rfl
      refine ⟨caps, ?_⟩
      cases fuel with
      | zero => simp [starLoop, runText, hil, List.dropWhile_cons_of_neg hneg]
      | succ f => simp [starLoop, h0, runText, hil, List.dropWhile_cons_of_neg hneg]

/-- The list-run pattern at the start of a list item of the joined markup: its first
match is the whole run of consecutive list items. -/
theorem reMatch_reListRun_item (l : JsString) (hl : ItemLine l) (rest : List JsString)
    (hrest : ∀ x ∈ rest, ItemLine x ∨ BlockLine x) (pos : Nat) :
    ∃ caps2, (reMatch reListRun ⟨pos, join [10] (l :: rest), []⟩).head? =
      some ⟨pos + (runText (l :: rest)).length,
        join [10] ((l :: rest).dropWhile isListItem), caps2⟩ := by
  obtain ⟨c1, tail, hg⟩ := reMatch_group_item l hl rest hrest pos []
  have hil := isListItem_item l hl
  obtain ⟨caps2, hih⟩ := starLoop_run_head rest hrest (join [10] rest).length (Nat.le_refl _)
    (pos + (l ++ (if rest.isEmpty then [] else [10])).length) c1
  refine ⟨caps2, ?_⟩
  unfold reListRun Re.plus
  rw [reMatch_seq, hg, List.flatMap_cons]
  have hstar : reMatch (.star true (.group 1 reListItem))
      ⟨pos + (l ++ (if rest.isEmpty then [] else [10])).length, join [10] rest, c1⟩ =
      starLoop (reMatch (.group 1 reListItem)) true (join [10] rest).length
        ⟨pos + (l ++ (if rest.isEmpty then [] else [10])).length, join [10] rest, c1⟩ := by
    simp [reMatch]
  rw [hstar, List.head?_append_of_ne_nil _ (by
    intro hnil
    rw [hnil] at hih
    cases hih), hih]
  simp [runText, hil, List.dropWhile_cons_of_pos hil, Nat.add_assoc]

theorem execFrom_of_head (re : Re) (pos : Nat) (s : JsString) (st : MatchState)
    (h : (reMatch re ⟨pos, s, []⟩).head? = some st) : execFrom re pos s = some ([], st) := by
  cases s with
  | nil => simp [execFrom, h]
  | cons c cs => simp [execFrom, h]

theorem runText_item_pos (l : JsString) (rest : List JsString) (hl : ItemLine l) :
    0 < (runText (l :: rest)).length := by
  have := itemLine_length_pos l hl
  simp only [runText, isListItem_item l hl, if_true, List.length_append]
  omega

theorem block_suffix_newline (l a b : JsString) (hb : b ≠ []) (hab : l ++ [10] = a ++ b) :
    ∃ b2, l = a ++ b2 ∧ b = b2 ++ [10] := by
  rcases List.append_eq_append_iff.mp hab with ⟨a2, ha, h2⟩ | ⟨c2, hl, h2⟩
  · cases a2 with
    | nil =>
      refine ⟨[], by simpa using ha.symm, by simpa using h2.symm⟩
    | cons x xs =>
      have := congrArg List.length h2
      simp only [List.length_cons, List.length_append, List.length_nil,
        List.length_singleton] at this
      have hb2 : b = [] := List.length_eq_zero.mp (by omega)
      exact absurd hb2 hb
  · exact ⟨c2, hl, h2⟩

/-- The global replacement over the joined markup of clean lines produces the grouping
of the specification. -/
theorem replaceAllAux_join (n : Nat) :
    ∀ ls : List JsString, ls.length ≤ n → (∀ l ∈ ls, ItemLine l ∨ BlockLine l) →
      ∀ fuel pos : Nat, (join [10] ls).length + 1 ≤ fuel →
        replaceAllAux reListRun (fun m _ => ulOpen ++ m ++ ulClose) fuel pos (join [10] ls) =
          groupRuns false ls := by
  have hbase : ∀ fuel pos : Nat, 1 ≤ fuel →
      replaceAllAux reListRun (fun m _ => ulOpen ++ m ++ ulClose) fuel pos [] = [] := by
    intro fuel pos hfuel
    obtain ⟨f, rfl⟩ : ∃ f, fuel = f + 1 := ⟨fuel - 1, by omega⟩
    have h0 : reMatch reListRun ⟨pos, [], []⟩ = [] :=
      reMatch_reListRun_none _ (reMatch_reListItem_newlineLed [] (Or.inl rfl) pos [])
    simp [replaceAllAux, execFrom, h0]
  induction n with
  | zero =>
    intro ls hlen _ fuel pos hfuel
    have : ls = [] := List.length_eq_zero.mp (by omega)
    subst this
    simpa [join, groupRuns] using hbase fuel pos (by omega)
  | succ n ih =>
    intro ls hlen hls fuel pos hfuel
    cases ls with
    | nil => simpa [join, groupRuns] using hbase fuel pos (by omega)
    | cons l rest =>
      have hrest : ∀ x ∈ rest, ItemLine x ∨ BlockLine x :=
        fun x hx => hls x (List.mem_cons_of_mem _ hx)
      have hrlen : rest.length ≤ n := by
        simp only [List.length_cons] at hlen
        omega
      obtain ⟨f, rfl⟩ : ∃ f, fuel = f + 1 := ⟨fuel - 1, by omega⟩
      rcases hls l (List.mem_cons_self _ _) with hl | hl
      · -- a run of list items starts here
        obtain ⟨caps2, hhead⟩ := reMatch_reListRun_item l hl rest hrest pos
        have hil := isListItem_item l hl
        have hpos := runText_item_pos l rest hl
        have hexec := execFrom_of_head _ _ _ _ hhead
        have hjr := join_runText (l :: rest)
        have hdw : (l :: rest).dropWhile isListItem = rest.dropWhile isListItem :=
          List.dropWhile_cons_of_pos hil
        have hdwlen : ((l :: rest).dropWhile isListItem).length ≤ n := by
          rw [hdw]
          exact Nat.le_trans (List.dropWhile_sublist _).length_le hrlen
        have hdwls : ∀ x ∈ (l :: rest).dropWhile isListItem, ItemLine x ∨ BlockLine x :=
          fun x hx => hls x ((List.dropWhile_sublist _).subset hx)
        have hfuel2 : (join [10] ((l :: rest).dropWhile isListItem)).length + 1 ≤ f := by
          have := congrArg List.length hjr
          simp only [List.length_append] at this
          omega
        have hrec := ih _ hdwlen hdwls f (pos + (runText (l :: rest)).length) hfuel2
        have hne : ¬ (pos + (runText (l :: rest)).length = pos + 0) := by omega
        have htake : List.take (runText (l :: rest)).length (join [10] (l :: rest)) =
            runText (l :: rest) := by
          rw [hjr]
          exact List.take_left _ _
        rw [groupRuns_false_item l rest hil]
        unfold replaceAllAux
        rw [hexec]
        simp only [matchedText, List.length_nil, List.drop_zero, Nat.add_zero, List.nil_append,
          Nat.add_sub_cancel_left, htake]
        rw [if_neg (by omega), hrec]
        simp [List.append_assoc]
      · -- a heading or a paragraph: the search skips it
        have hil := isListItem_block l hl
        rw [groupRuns_false_block l rest hil]
        cases rest with
        | nil =>
          have hskip := execFrom_skip reListRun l [] pos (fun a b hab _ =>
            reMatch_reListRun_none _
              (reMatch_reListItem_block l hl [] (Or.inl rfl) a b hab _ _))
          have h1 := replaceAllAux_skip reListRun (fun m _ => ulOpen ++ m ++ ulClose) f l [] pos
            hskip
          rw [List.append_nil] at h1
          simp only [join]
          rw [h1, hbase _ _ (by omega)]
          simp [groupRuns]
        | cons l2 rest2 =>
          have hskip := execFrom_skip reListRun (l ++ [10]) (join [10] (l2 :: rest2)) pos
            (fun a b hab hb => by
              obtain ⟨b2, hl2, hb2⟩ := block_suffix_newline l a b hb hab
              rw [hb2, List.append_assoc]
              exact reMatch_reListRun_none _
                (reMatch_reListItem_block l hl _ (Or.inr ⟨_, rfl⟩) a b2 hl2 _ _))
          have h1 := replaceAllAux_skip reListRun (fun m _ => ulOpen ++ m ++ ulClose) f
            (l ++ [10]) (join [10] (l2 :: rest2)) pos hskip
          have hj : join [10] (l :: l2 :: rest2) = (l ++ [10]) ++ join [10] (l2 :: rest2) := by
            rw [join_cons]
            simp
          have hfuel2 : (join [10] (l2 :: rest2)).length + 1 ≤ f + 1 := by
            have := congrArg List.length hj
            simp only [List.length_append] at this
            omega
          rw [hj, h1, ih _ hrlen hrest (f + 1) _ hfuel2]
          simp

/-- The `<ul>` wrapping of the joined markup of clean lines is the grouping of the
specification. -/
theorem wrapLists_join (ls : List JsString) (hls : ∀ l ∈ ls, ItemLine l ∨ BlockLine l) :
    wrapLists (join [10] ls) = groupRuns false ls :=
  replaceAllAux_join ls.length ls (Nat.le_refl _) hls _ 0 (Nat.le_refl _)

/-! ### The markup of one clean line -/

theorem includes_append_left (a s w : JsString) (h : includes s w = true) :
    includes (a ++ s) w = true := by
  induction a with
  | nil => simpa using h
  | cons c cs ih => simp [includes, ih]

theorem includes_append_right (s b w : JsString) (h : includes s w = true) :
    includes (s ++ b) w = true := by
  induction s with
  | nil =>
    simp only [includes, List.isEmpty_iff] at h
    subst h
    cases b <;> simp [includes]
  | cons c cs ih =>
    simp only [includes, Bool.or_eq_true] at h
    rcases h with h | h
    · have hp : w.isPrefixOf (c :: cs ++ b) = true := by
        rw [ List.isPrefixOf_iff_prefix] at h ⊢
        exact h.trans (List.prefix_append _ _)
      simp only [List.cons_append] at hp ⊢
      simp [includes, hp]
    · simp [includes, ih h]

theorem cleanLine_infix (a x b : JsString) (h : cleanLine (a ++ (x ++ b)) = true) :
    cleanLine x = true := by
  rw [cleanLine_iff] at h ⊢
  refine ⟨fun c hc => h.1 c (by simp [hc]), ?_⟩
  cases hx : includes x (js "</li>") with
  | false => rfl
  | true =>
    have := includes_append_left a _ _ (includes_append_right x b _ hx)
    rw [this] at h
    exact absurd h.2 (by simp)

theorem cleanLine_drop (k : Nat) (l : JsString) (h : cleanLine l = true) :
    cleanLine (l.drop k) = true := by
  apply cleanLine_infix (l.take k) (l.drop k) []
  rw [List.append_nil, List.take_append_drop]
  exact h

theorem endsWith_split (y w : JsString) (h : endsWith y w = true) : ∃ x, y = x ++ w := by
  unfold endsWith at h
  rw [ List.isPrefixOf_iff_prefix] at h
  obtain ⟨t, ht⟩ := h
  refine ⟨t.reverse, ?_⟩
  have := congrArg List.reverse ht
  simpa using this.symm

theorem startsWith_split (line w : JsString) (h : startsWith line w = true) :
    ∃ y, line = w ++ y := by
  unfold startsWith at h
  rw [ List.isPrefixOf_iff_prefix] at h
  obtain ⟨t, ht⟩ := h
  exact ⟨t, ht.symm⟩

theorem replaceFirst_reBold_none_after (f : JsString → List (Nat × JsString) → JsString)
    (line : JsString) (h : endsWith (line.drop (js "* **").length) [42, 42] = false) :
    replaceFirst reBold f line = line := by
  have hj : js "**" = [42, 42] := by decide
  have hnone : reMatch (.seq (Re.lit (js "* **")) (.seq (.group 1 (.star true Re.dot))
      (.seq (Re.lit [42, 42]) .eol))) ⟨0, line, []⟩ = [] := by
    rw [reMatch_lit_seq]
    split
    · rw [reMatch_group_seq]
      apply reMatch_boldBody_none
      · intro st
        rfl
      · exact h
    · rfl
  unfold replaceFirst reBold
  rw [execFrom_bol, hj, hnone]
  rfl

/-- The content of a bold list item is the line or a part of it. -/
theorem replaceFirst_reBold_clean (line : JsString) (hclean : cleanLine line = true)
    (hstart : startsWith line (js "* **") = true) :
    cleanLine (replaceFirst reBold (fun _ caps => (capture caps 1).getD []) line) = true := by
  obtain ⟨y, rfl⟩ := startsWith_split _ _ hstart
  cases hy : endsWith y [42, 42] with
  | false =>
    rw [replaceFirst_reBold_none_after _ _ (by rw [List.drop_left]; exact hy)]
    exact hclean
  | true =>
    obtain ⟨x, rfl⟩ := endsWith_split _ _ hy
    have hj : js "**" = [42, 42] := by decide
    have hx : cleanLine x = true := cleanLine_infix _ x _ hclean
    have hterm := ((cleanLine_iff x).mp hx).1
    have := replaceFirst_reBold_some x hterm
    rw [hj, List.append_assoc] at this
    rw [this]
    exact hx

/-- The content of a plain list item is the line or a part of it. -/
theorem replaceFirst_reBullet_clean (line : JsString) (hclean : cleanLine line = true) :
    cleanLine (replaceFirst reBullet (fun _ _ => []) line) = true := by
  cases hs : startsWith line (js "* ") with
  | false =>
    rw [replaceFirst_reBullet_none _ _ hs]
    exact hclean
  | true =>
    have hr : replaceFirst reBullet (fun _ _ => []) line = line.drop (js "* ").length := by
      unfold startsWith at hs
      unfold replaceFirst reBullet
      rw [execFrom_bol, reMatch_lit, hs]
      simp
    rw [hr]
    exact cleanLine_drop _ _ hclean

theorem liOpen_shape : ∃ attrs, liOpen = js "<li" ++ (attrs ++ [62]) ∧
    ∀ c ∈ attrs, (c != 62) = true :=
  ⟨js " style=\"font-size: 1em; margin: 0.3em 0;\"", by decide, by decide⟩

theorem liBoldOpen_shape : ∃ attrs, liBoldOpen = js "<li" ++ (attrs ++ [62]) ∧
    ∀ c ∈ attrs, (c != 62) = true :=
  ⟨js " style=\"font-size: 1em; margin: 0.3em 0; font-weight: bold;\"", by decide, by decide⟩

theorem wellFormedLine_iff (l : JsString) :
    wellFormedLine l = true ↔
      includes l (js "</li>") = false ∧
        (startsWith l (js "*") = true → endsWith l (js ":") = false →
          ∀ c ∈ l, isLineTerminator c = false) := by
  unfold wellFormedLine
  cases includes l (js "</li>") <;> cases startsWith l (js "*") <;>
    cases endsWith l (js ":") <;> simp

/-- The markup of a well-formed line is empty, a list item, or a heading or paragraph. -/
theorem formatLine_classify (line0 : JsString) (hwf : wellFormedLine (trim line0) = true) :
    formatLine line0 = [] ∨ ItemLine (formatLine line0) ∨ BlockLine (formatLine line0) := by
  have hclose : liClose = js "</li>" := rfl
  rw [wellFormedLine_iff] at hwf
  obtain ⟨hinc, hitem⟩ := hwf
  unfold formatLine
  simp only []
  by_cases h0 : (trim line0).length = 0
  · rw [if_pos h0]
    exact Or.inl rfl
  · rw [if_neg h0]
    right
    by_cases h1 : endsWith (trim line0) (js ":") = true
    · rw [if_pos h1]
      exact Or.inr ⟨trim line0, hinc, Or.inl (by simp)⟩
    · rw [if_neg h1]
      have h1f : endsWith (trim line0) (js ":") = false := by simpa using h1
      by_cases h2 : startsWith (trim line0) (js "* **") = true
      · rw [if_pos h2]
        have hstar : startsWith (trim line0) (js "*") = true := by
          have e : js "* **" = js "*" ++ js " **" := by decide
          rw [e] at h2
          exact startsWith_of_append _ _ _ h2
        have hclean : cleanLine (trim line0) = true :=
          (cleanLine_iff _).mpr ⟨hitem hstar h1f, hinc⟩
        obtain ⟨attrs, hopen, hattrs⟩ := liBoldOpen_shape
        exact Or.inl ⟨attrs, _, by rw [hopen, hclose]; simp, hattrs,
          replaceFirst_reBold_clean _ hclean h2⟩
      · rw [if_neg h2]
        by_cases h3 : startsWith (trim line0) (js "*") = true
        · rw [if_pos h3]
          have hclean : cleanLine (trim line0) = true :=
            (cleanLine_iff _).mpr ⟨hitem h3 h1f, hinc⟩
          obtain ⟨attrs, hopen, hattrs⟩ := liOpen_shape
          exact Or.inl ⟨attrs, _, by rw [hopen, hclose]; simp, hattrs,
            replaceFirst_reBullet_clean _ hclean⟩
        · rw [if_neg h3]
          exact Or.inr ⟨trim line0, hinc, Or.inr (by simp)⟩

theorem formattedElements_classify (buffer : JsString) (h : cleanBuffer buffer = true) :
    ∀ e ∈ formattedElements buffer, ItemLine e ∨ BlockLine e := by
  intro e he
  unfold formattedElements at he
  rw [List.mem_filter, List.mem_map] at he
  obtain ⟨⟨line0, hmem, rfl⟩, hlen⟩ := he
  unfold cleanBuffer at h
  rw [List.all_eq_true] at h
  rcases formatLine_classify line0 (h line0 hmem) with h0 | h0
  · rw [h0] at hlen
    simp at hlen
  · exact h0

/-- The markup of a clean buffer is the grouping of the specification applied to the
markup of its lines. -/
theorem render_clean (buffer : JsString) (h : cleanBuffer buffer = true) :
    wrappedSummary buffer = groupRuns false (formattedElements buffer) :=
  wrapLists_join _ (formattedElements_classify buffer h)

set_option maxRecDepth 100000 in
theorem render_samples :
    wrappedSummary (js "* a\n* b") =
      ulOpen ++ (liOpen ++ js "a" ++ liClose) ++ js "\n" ++ (liOpen ++ js "b" ++ liClose) ++
        ulClose ∧
    wrappedSummary (js "Section:\n* point one\nplain line") =
      (h2Open ++ js "Section:" ++ h2Close) ++ js "\n" ++
        (ulOpen ++ (liOpen ++ js "point one" ++ liClose) ++ js "\n" ++ ulClose) ++
        (pOpen ++ js "plain line" ++ pClose) := by
  decide

/-- Where the wrapping works: for every buffer in which no trimmed line holds the closing
tag `</li>` and no trimmed line that becomes a list item holds a carriage return, U+2028 or
U+2029, the markup produced by the formatter is the grouping of the markup of its lines:
every maximal run of consecutive list-item elements is wrapped in exactly one `<ul>`
container and every heading and paragraph is left outside; `* a`, newline, `* b` yields
one `<ul>` holding the two items a, b in order, and `Section:`, `* point one`,
`plain line` yields one `<h2>`, one `<ul>` with one item and one `<p>`, in this order. -/
theorem render_groups_list_runs (buffer : JsString) (h : cleanBuffer buffer = true) :
    wrappedSummary buffer = groupRuns false (formattedElements buffer) ∧
    wrappedSummary (js "* a\n* b") =
      ulOpen ++ (liOpen ++ js "a" ++ liClose) ++ js "\n" ++ (liOpen ++ js "b" ++ liClose) ++
        ulClose ∧
    wrappedSummary (js "Section:\n* point one\nplain line") =
      (h2Open ++ js "Section:" ++ h2Close) ++ js "\n" ++
        (ulOpen ++ (liOpen ++ js "point one" ++ liClose) ++ js "\n" ++ ulClose) ++
        (pOpen ++ js "plain line" ++ pClose) :=
  ⟨render_clean buffer h, render_samples⟩

set_option maxRecDepth 100000 in
theorem render_groups_list_runs_witness :
    cleanBuffer (js "Intro:\r\n* **first**\n* second <b>point</b>\n\nclosing\rwords") = true ∧
    wrappedSummary (js "Intro:\r\n* **first**\n* second <b>point</b>\n\nclosing\rwords") =
      groupRuns false
        (formattedElements (js "Intro:\r\n* **first**\n* second <b>point</b>\n\nclosing\rwords")) ∧
    wrappedSummary (js "* a\n* b") =
      ulOpen ++ (liOpen ++ js "a" ++ liClose) ++ js "\n" ++ (liOpen ++ js "b" ++ liClose) ++
        ulClose ∧
    wrappedSummary (js "Section:\n* point one\nplain line") =
      (h2Open ++ js "Section:" ++ h2Close) ++ js "\n" ++
        (ulOpen ++ (liOpen ++ js "point one" ++ liClose) ++ js "\n" ++ ulClose) ++
        (pOpen ++ js "plain line" ++ pClose) :=
  ⟨by decide,
    render_groups_list_runs (js "Intro:\r\n* **first**\n* second <b>point</b>\n\nclosing\rwords")
      (by decide)⟩

set_option maxHeartbeats 4000000 in
set_option maxRecDepth 100000 in
/-- C1 (evaluation of the code): the buffer `* a`, carriage return, `b` yields one
list-item element that is wrapped in no `<ul>` at all, and the buffer `* a</li>b`,
newline, `* c` yields two consecutive list-item elements that are wrapped in two separate
`<ul>` containers, the first container closing in the middle of the first item; in both
cases the markup differs from the grouping of the list-item elements. -/
theorem render_run_not_wrapped :
    formattedElements (js "* a\rb") = [liOpen ++ js "a\rb" ++ liClose] ∧
    isListItem (liOpen ++ js "a\rb" ++ liClose) = true ∧
    wrappedSummary (js "* a\rb") = liOpen ++ js "a\rb" ++ liClose ∧
    wrappedSummary (js "* a\rb") ≠ groupRuns false (formattedElements (js "* a\rb")) ∧
    formattedElements (js "* a</li>b\n* c") =
      [liOpen ++ js "a</li>b" ++ liClose, liOpen ++ js "c" ++ liClose] ∧
    isListItem (liOpen ++ js "a</li>b" ++ liClose) = true ∧
    isListItem (liOpen ++ js "c" ++ liClose) = true ∧
    wrappedSummary (js "* a</li>b\n* c") =
      ulOpen ++ (liOpen ++ js "a</li>") ++ ulClose ++ js "b</li>\n" ++
        ulOpen ++ (liOpen ++ js "c" ++ liClose) ++ ulClose ∧
    wrappedSummary (js "* a</li>b\n* c") ≠ groupRuns false (formattedElements (js "* a</li>b\n* c")) := by
  decide

end YtSummary
